import Mathlib

/-!
Log2CSV: a shallow embedding of `cmd/log2csv/log2csv.go`.

Go strings are immutable byte sequences; they are modelled as lists of byte
values (`Nat`, of which only `0..255` occur in real data).  The regular
expression engine, the input reader and the output writer are the program's
external collaborators: the engine is a record of the two methods the program
calls, the reader is the byte stream it delivers together with the error that
ends it, and the writer is the bytes it has accepted together with the room it
has left.  The parts of the Go standard library the program relies on
(`bufio.Reader.Peek`, `bufio.Scanner` with `ScanLines`, `encoding/csv.Writer`)
are modelled after their library sources and are marked as such.
-/

namespace Log2CSV

/-! ## Strings and constants -/

/-- Go `string`: a sequence of bytes. -/
abbrev GoString := List Nat

/-- Bytes of an ASCII literal. -/
def ascii (s : String) : GoString := s.toList.map Char.toNat

/-- Separator `csvSeparator = ','`. -/
def csvSeparator : Nat := 44

/-- Constant `logLineSizeMax = 64 * 1024`. -/
def logLineSizeMax : Nat := 64 * 1024

/-- Constant `bufferSizeMax = 10 * 1024 * 1024`. -/
def bufferSizeMax : Nat := 10 * 1024 * 1024

/-- Go standard library, `bufio`: `defaultBufSize`, the buffer size of a reader made
by `bufio.NewReader`. -/
def defaultBufSize : Nat := 4096

/-- Line feed byte. -/
def LF : Nat := 10

/-- Carriage return byte. -/
def CR : Nat := 13

/-- Double quote byte. -/
def DQUOTE : Nat := 34

/-- Error values that reach `processInput`. `EOF` is `io.EOF`, `ErrBufferFull` and
`ErrTooLong` are the `bufio` sentinels, `ioFailure` is any failure of the underlying
stream. -/
inductive GoError where
  | EOF
  | ErrBufferFull
  | ErrTooLong
  | ioFailure (code : Nat)
  deriving DecidableEq, Repr

/-! ## The pattern-matching engine -/

/-- The two methods of `*regexp.Regexp` the program calls. `FindStringSubmatch`
returns `none` for Go's `nil` (no match); a group that did not participate in the
match is the empty string, as in Go. -/
structure Regexp where
  SubexpNames : List GoString
  FindStringSubmatch : GoString → Option (List GoString)

/-- Engine contract of package `regexp`: the name list starts with the whole-match
slot, whose name is empty, and a match has one slot per entry of the name list. -/
def Regexp.WellFormed (re : Regexp) : Prop :=
  re.SubexpNames.head? = some [] ∧
  ∀ line submatches, re.FindStringSubmatch line = some submatches →
    submatches.length = re.SubexpNames.length

/-- Function `extractGroupNames`. The slice expression `re.SubexpNames()[1:]` panics on
an empty list (`none`). -/
def extractGroupNames (re : Regexp) : Option (List GoString) :=
  match re.SubexpNames with
  | [] => none
  | _ :: names => some (names.filter (fun name => name ≠ []))

/-- One iteration of the loop of `processLine` at index `idxSubmatch`, on the loop
state `(values, allEmpty)`; `none` is an index-out-of-range panic. -/
def processLineStep (subNames submatches : List GoString)
    (st : List GoString × Bool) (idxSubmatch : Nat) : Option (List GoString × Bool) :=
  match subNames[idxSubmatch]? with
  | none => none
  | some name =>
    if name = [] then some st
    else
      match submatches[idxSubmatch]? with
      | none => none
      | some val => some (st.1 ++ [val], if val ≠ [] then false else st.2)

/-- Function `processLine`: the CSV values and `true` when the line is accepted,
`([], false)` when it is ignored; `none` is a run-time panic. The loop runs
`idxSubmatch` over `1 ..< len(submatches)`. -/
def processLine (line : GoString) (re : Regexp) (_groupNames : List GoString) :
    Option (List GoString × Bool) :=
  match re.FindStringSubmatch line with
  | none => some ([], false)
  | some submatches =>
    match (List.range' 1 (submatches.length - 1)).foldlM
        (processLineStep re.SubexpNames submatches) ([], true) with
    | none => none
    | some (values, allEmpty) => if allEmpty then some ([], false) else some (values, true)

/-! ## The input stream -/

/-- An `io.Reader`: the bytes it delivers and the error that ends the stream
(`GoError.EOF` for a regular end of input). -/
structure Reader where
  data : List Nat
  err : GoError
  deriving DecidableEq

/-- Go standard library, `bufio.Reader.Peek(n)` on a fresh reader whose buffer holds
`bufSize` bytes: the buffer is filled until it is full or the source has ended; a
request larger than the buffer returns the whole buffer with `ErrBufferFull`, a
request the source cannot satisfy returns what there is with the source's error.
Nothing is consumed. -/
def Reader.Peek (b : Reader) (bufSize n : Nat) : List Nat × Option GoError :=
  let buffered := b.data.take bufSize
  if n > bufSize then (buffered, some GoError.ErrBufferFull)
  else if buffered.length < n then (buffered, some b.err)
  else (buffered.take n, none)

/-- Go standard library, `bytes.IndexByte`: index of the first occurrence of `c`,
`none` for `-1`. -/
def IndexByte : List Nat → Nat → Option Nat
  | [], _ => none
  | b :: rest, c => if b = c then some 0 else (IndexByte rest c).map (fun i => i + 1)

/-- Function `peekForLineEnding`. `bufio.NewReader(input)` is the same stream seen
through a buffer of `defaultBufSize` bytes. -/
def peekForLineEnding (input : Reader) (sizeMaxPeek : Nat) : Except GoError (Reader × GoString) :=
  let inputBuffer := input
  match inputBuffer.Peek defaultBufSize sizeMaxPeek with
  | (sample, err) =>
    if err ≠ none ∧ err ≠ some GoError.EOF ∧ err ≠ some GoError.ErrBufferFull then
      Except.error (err.getD GoError.EOF)
    else
      match IndexByte sample LF with
      | some idx =>
        if idx > 0 ∧ sample[idx - 1]? = some CR then Except.ok (inputBuffer, [CR, LF])
        else Except.ok (inputBuffer, [LF])
      | none => Except.ok (inputBuffer, [LF])

/-- Go standard library, `bytes.IndexByte` as Go returns it: an `int`, `-1` when the
byte does not occur. -/
def IndexByteInt (s : List Nat) (c : Nat) : Int :=
  match IndexByte s c with
  | some idx => (idx : Int)
  | none => -1

/-- The Go index expression `s[i]` for an `int` index: `none` is the run-time panic
`index out of range`, raised when `i` is negative or not below `len(s)`. -/
def byteAt (s : List Nat) (i : Int) : Option Nat :=
  if 0 ≤ i ∧ i < (s.length : Int) then s[i.toNat]? else none

/-- Function `peekForLineEnding` with Go's bounds check of `sample[idx-1]` made
explicit: the outer `none` is the run-time panic of an index out of range. The
operator `&&` evaluates `sample[idx-1]` only when `idx > 0` holds. -/
def peekForLineEndingChecked (input : Reader) (sizeMaxPeek : Nat) :
    Option (Except GoError (Reader × GoString)) :=
  let inputBuffer := input
  match inputBuffer.Peek defaultBufSize sizeMaxPeek with
  | (sample, err) =>
    if err ≠ none ∧ err ≠ some GoError.EOF ∧ err ≠ some GoError.ErrBufferFull then
      some (Except.error (err.getD GoError.EOF))
    else
      if IndexByteInt sample LF ≥ 0 then
        if IndexByteInt sample LF > 0 then
          match byteAt sample (IndexByteInt sample LF - 1) with
          | none => none
          | some b =>
            if b = CR then some (Except.ok (inputBuffer, [CR, LF]))
            else some (Except.ok (inputBuffer, [LF]))
        else some (Except.ok (inputBuffer, [LF]))
      else some (Except.ok (inputBuffer, [LF]))

/-- A `bufio.Scanner` with the `ScanLines` split function: its source and its
maximum token size. -/
structure Scanner where
  r : Reader
  maxTokenSize : Nat

/-- Function `openInput`: `inputScanner.Buffer(buf, bufferSizeMax)` sets the maximum
token size to `bufferSizeMax`; `buf`, of capacity `logLineSizeMax`, is only the
initial buffer. -/
def openInput (input : Reader) : Scanner :=
  { r := input, maxTokenSize := bufferSizeMax }

/-- Go standard library, `bufio.dropCR`: drop one trailing carriage return. -/
def dropCR (data : List Nat) : List Nat :=
  if data.getLast? = some CR then data.dropLast else data

/-- Go standard library, `bufio.Scanner.Scan` with `ScanLines`, run to the end: the
tokens delivered and the final value of `Err()`. `cur` holds the bytes of the current
line already in the buffer. The scanner gives up with `ErrTooLong` when the buffer
holds `maxTokenSize` bytes without a line feed; at the end of the source a non-empty
rest is delivered as the last token; `Err()` is `nil` when the source ended with
`io.EOF`. -/
def scanLines (maxTokenSize : Nat) (err : GoError) :
    List Nat → List Nat → List GoString × Option GoError
  | [], cur =>
    if cur.length ≥ maxTokenSize then ([], some GoError.ErrTooLong)
    else
      (if cur = [] then [] else [dropCR cur], if err = GoError.EOF then none else some err)
  | b :: rest, cur =>
    if cur.length ≥ maxTokenSize then ([], some GoError.ErrTooLong)
    else if b = LF then
      ((dropCR cur) :: (scanLines maxTokenSize err rest []).1,
        (scanLines maxTokenSize err rest []).2)
    else scanLines maxTokenSize err rest (cur ++ [b])

/-- The lines `sc.Text()` for which `sc.Scan()` returns `true`, in order. -/
def Scanner.lines (sc : Scanner) : List GoString :=
  (scanLines sc.maxTokenSize sc.r.err sc.r.data []).1

/-- Method `sc.Err()` after `sc.Scan()` has returned `false`. -/
def Scanner.Err (sc : Scanner) : Option GoError :=
  (scanLines sc.maxTokenSize sc.r.err sc.r.data []).2

/-! ## The output stream and `encoding/csv` -/

/-- An `io.Writer`: the bytes it has accepted, the number of bytes it can still
accept (`none`: it never fails) and the error it reports once that room is used up. -/
structure Writer where
  written : List Nat
  room : Option Nat
  err : GoError
  deriving DecidableEq

/-- Writing `p`: all of it when there is room, otherwise the part that fits and the
writer's error. -/
def Writer.Write (w : Writer) (p : List Nat) : Writer × Option GoError :=
  match w.room with
  | none => ({ w with written := w.written ++ p }, none)
  | some k =>
    if p.length ≤ k then ({ w with written := w.written ++ p, room := some (k - p.length) }, none)
    else ({ w with written := w.written ++ p.take k, room := some 0 }, some w.err)

/-- Go standard library, `unicode.IsSpace` of the first rune of a string
(`utf8.DecodeRuneInString`): the UTF-8 encodings of the `White_Space` code points
U+0009..U+000D, U+0020, U+0085, U+00A0, U+1680, U+2000..U+200A, U+2028, U+2029,
U+202F, U+205F, U+3000. -/
def firstRuneIsSpace : GoString → Bool
  | [] => false
  | [b] => (9 ≤ b ∧ b ≤ 13) ∨ b = 32
  | [b, c] => (9 ≤ b ∧ b ≤ 13) ∨ b = 32 ∨ (b = 0xC2 ∧ (c = 0x85 ∨ c = 0xA0))
  | b :: c :: d :: _ =>
    (9 ≤ b ∧ b ≤ 13) ∨ b = 32 ∨ (b = 0xC2 ∧ (c = 0x85 ∨ c = 0xA0)) ∨
    (b = 0xE1 ∧ c = 0x9A ∧ d = 0x80) ∨
    (b = 0xE2 ∧ c = 0x80 ∧ ((0x80 ≤ d ∧ d ≤ 0x8A) ∨ d = 0xA8 ∨ d = 0xA9 ∨ d = 0xAF)) ∨
    (b = 0xE2 ∧ c = 0x81 ∧ d = 0x9F) ∨
    (b = 0xE3 ∧ c = 0x80 ∧ d = 0x80)

/-- Go standard library, `csv.Writer.fieldNeedsQuotes` with `Comma = csvSeparator`:
the empty field is never quoted, the field `\.` always is, a field holding a line
feed, a carriage return, a double quote or the separator is, and so is a field that
starts with a space. -/
def fieldNeedsQuotes (field : GoString) : Bool :=
  if field = [] then false
  else if field = [92, 46] then true
  else if field.any (fun c => c = LF ∨ c = CR ∨ c = DQUOTE ∨ c = csvSeparator) then true
  else firstRuneIsSpace field

/-- Go standard library, `csv.Writer.Write`, the body of a quoted field: bytes other
than `"`, `\r`, `\n` are copied; `"` is written twice; `\r` is written unless
`UseCRLF`; `\n` is written as `\r\n` when `UseCRLF`. -/
def writeQuotedBody (UseCRLF : Bool) : GoString → List Nat
  | [] => []
  | c :: field =>
    (if c = DQUOTE then [DQUOTE, DQUOTE]
     else if c = CR then (if UseCRLF then [] else [CR])
     else if c = LF then (if UseCRLF then [CR, LF] else [LF])
     else [c]) ++ writeQuotedBody UseCRLF field

/-- Go standard library, `csv.Writer.Write`, one field: written as it is, or between
double quotes when `fieldNeedsQuotes`. -/
def writeField (UseCRLF : Bool) (field : GoString) : List Nat :=
  if fieldNeedsQuotes field then [DQUOTE] ++ writeQuotedBody UseCRLF field ++ [DQUOTE]
  else field

/-- Go standard library, `csv.Writer.Write`, the loop `for n, field := range record`:
the separator before every field but the first. -/
def writeFields (UseCRLF : Bool) : Nat → List GoString → List Nat
  | _, [] => []
  | n, field :: record =>
    (if n > 0 then [csvSeparator] else []) ++ writeField UseCRLF field ++
      writeFields UseCRLF (n + 1) record

/-- Go standard library, `csv.Writer.Write`: the bytes of one record, ended by `\r\n`
when `UseCRLF` and by `\n` otherwise. -/
def csvWrite (UseCRLF : Bool) (record : List GoString) : List Nat :=
  writeFields UseCRLF 0 record ++ (if UseCRLF then [CR, LF] else [LF])

/-- Function `writeCSVRow`: a fresh `csv.Writer` on `output` with
`UseCRLF = (lineEnding == "\r\n")` writes the record and is flushed; the bytes reach
`output` in order until it fails, and its error is returned. -/
def writeCSVRow (output : Writer) (values : List GoString) (lineEnding : GoString) :
    Writer × Option GoError :=
  output.Write (csvWrite (decide (lineEnding = [CR, LF])) values)

/-! ## The processing loop -/

/-- How `processInput` ends: it returns `nil`, returns an error, or panics. -/
inductive Outcome where
  | nil
  | error (e : GoError)
  | panic
  deriving DecidableEq, Repr

/-- The loop `for sc.Scan()` of `processInput` over the lines the scanner delivers,
with the loop variable `firstLine` and the state of `output`; `scErr` is the value of
`sc.Err()` returned after the loop. -/
def processInputLoop (re : Regexp) (groupNames : List GoString) (lineEnding : GoString)
    (scErr : Option GoError) : List GoString → Bool → Writer → Writer × Outcome
  | [], _, output =>
    (output, match scErr with
      | none => Outcome.nil
      | some e => Outcome.error e)
  | line :: rest, firstLine, output =>
    match processLine line re groupNames with
    | none => (output, Outcome.panic)
    | some (_, false) => processInputLoop re groupNames lineEnding scErr rest firstLine output
    | some (values, true) =>
      if firstLine then
        match writeCSVRow output groupNames lineEnding with
        | (output1, some e) => (output1, Outcome.error e)
        | (output1, none) =>
          match writeCSVRow output1 values lineEnding with
          | (output2, some e) => (output2, Outcome.error e)
          | (output2, none) =>
            processInputLoop re groupNames lineEnding scErr rest false output2
      else
        match writeCSVRow output values lineEnding with
        | (output1, some e) => (output1, Outcome.error e)
        | (output1, none) =>
          processInputLoop re groupNames lineEnding scErr rest false output1

/-- Function `processInput`: the final state of `output` and how the call ends. -/
def processInput (input : Reader) (re : Regexp) (groupNames : List GoString)
    (output : Writer) : Writer × Outcome :=
  match peekForLineEnding input logLineSizeMax with
  | Except.error e => (output, Outcome.error e)
  | Except.ok (inputReader, lineEnding) =>
    let sc := openInput inputReader
    processInputLoop re groupNames lineEnding sc.Err sc.lines true output

/-! ## Rows: the vocabulary of the statements -/

/-- The captures of the named groups, in slot order: the slots `1..` of a match paired
with their names, anonymous slots dropped. -/
def namedSlots (subNames submatches : List GoString) : List (GoString × GoString) :=
  ((subNames.drop 1).zip (submatches.drop 1)).filter (fun p => p.1 ≠ [])

/-- The row `processLine` yields for a line, when it accepts the line. -/
def acceptedRow (re : Regexp) (groupNames : List GoString) (line : GoString) :
    Option (List GoString) :=
  match processLine line re groupNames with
  | some (values, true) => some values
  | _ => none

/-- The data rows of a sequence of lines: the values of the accepted lines, in order. -/
def dataRows (re : Regexp) (groupNames : List GoString) (lines : List GoString) :
    List (List GoString) :=
  lines.filterMap (acceptedRow re groupNames)

/-- The rows passed to `writeCSVRow` for given data rows: the header first when the
header is still due and there is a data row. -/
def emittedRows (groupNames : List GoString) (firstLine : Bool) (rows : List (List GoString)) :
    List (List GoString) :=
  match rows with
  | [] => []
  | row :: rest => if firstLine then groupNames :: row :: rest else row :: rest

/-- Successive calls of `writeCSVRow`, stopping at the first error. -/
def writeRows (lineEnding : GoString) : Writer → List (List GoString) → Writer × Option GoError
  | output, [] => (output, none)
  | output, row :: rows =>
    match writeCSVRow output row lineEnding with
    | (output1, some e) => (output1, some e)
    | (output1, none) => writeRows lineEnding output1 rows

/-- The result of `processInput` after the rows have been written: a write error, or
else `sc.Err()`. -/
def finish (scErr : Option GoError) (r : Writer × Option GoError) : Writer × Outcome :=
  match r with
  | (output, some e) => (output, Outcome.error e)
  | (output, none) =>
    (output, match scErr with
      | none => Outcome.nil
      | some e => Outcome.error e)

/-- The bytes `csv.Writer.Write` writes for one byte of a quoted field. -/
def quotedByte (UseCRLF : Bool) (c : Nat) : List Nat :=
  if c = DQUOTE then [DQUOTE, DQUOTE]
  else if c = CR then (if UseCRLF then [] else [CR])
  else if c = LF then (if UseCRLF then [CR, LF] else [LF])
  else [c]

/-! ## Reading a record back -/

/-- States of a reader of delimited text: at the start of a cell, inside an unquoted
cell, inside a quoted cell, and just after a double quote met inside a quoted cell. -/
inductive ParseState where
  | fieldStart
  | unquoted
  | quoted
  | quoteSeen
  deriving DecidableEq, Repr

/-- Whether `rest` completes a record terminator begun by byte `c`. -/
def endsRecord (c : Nat) (rest : List Nat) : Bool :=
  (c = LF ∧ rest = []) ∨ (c = CR ∧ rest = [LF])

/-- A reader of one record of delimited text in the sense of RFC 4180, run on the state,
the cell read so far and the cells completed: cells are separated by the separator, a
cell in double quotes holds its bytes as they are, with two double quotes standing for
one, and the record ends with its terminator. -/
def parseRecord : ParseState → GoString → List GoString → List Nat → Option (List GoString)
  | _, _, _, [] => none
  | ParseState.fieldStart, _, fields, c :: rest =>
    if c = DQUOTE then parseRecord ParseState.quoted [] fields rest
    else if c = csvSeparator then parseRecord ParseState.fieldStart [] (fields ++ [[]]) rest
    else if c = LF ∨ c = CR then (if endsRecord c rest then some (fields ++ [[]]) else none)
    else parseRecord ParseState.unquoted [c] fields rest
  | ParseState.unquoted, field, fields, c :: rest =>
    if c = DQUOTE then none
    else if c = csvSeparator then parseRecord ParseState.fieldStart [] (fields ++ [field]) rest
    else if c = LF ∨ c = CR then (if endsRecord c rest then some (fields ++ [field]) else none)
    else parseRecord ParseState.unquoted (field ++ [c]) fields rest
  | ParseState.quoted, field, fields, c :: rest =>
    if c = DQUOTE then parseRecord ParseState.quoteSeen field fields rest
    else parseRecord ParseState.quoted (field ++ [c]) fields rest
  | ParseState.quoteSeen, field, fields, c :: rest =>
    if c = DQUOTE then parseRecord ParseState.quoted (field ++ [DQUOTE]) fields rest
    else if c = csvSeparator then parseRecord ParseState.fieldStart [] (fields ++ [field]) rest
    else if c = LF ∨ c = CR then (if endsRecord c rest then some (fields ++ [field]) else none)
    else none

/-- A standard delimited-text parser applied to the bytes of one record. -/
def parseCSVRecord (bytes : List Nat) : Option (List GoString) :=
  parseRecord ParseState.fieldStart [] [] bytes

/-- What `csv.Writer` with `UseCRLF` makes of the line breaks of a cell: carriage
returns are dropped and every line feed becomes carriage return, line feed. Without
`UseCRLF` the cell is kept. -/
def crlfTranslate (UseCRLF : Bool) (field : GoString) : GoString :=
  if UseCRLF then field.flatMap (fun c => if c = CR then [] else if c = LF then [CR, LF] else [c])
  else field

/-- What follows a completed field: the separator starts the next field, a record
terminator ends the record. -/
def afterField (field : GoString) (fields : List GoString) (d : Nat) (rest : List Nat) :
    Option (List GoString) :=
  if d = csvSeparator then parseRecord ParseState.fieldStart [] (fields ++ [field]) rest
  else if endsRecord d rest then some (fields ++ [field]) else none

/-! ## Lines of a stream -/

/-- The stream cut at its line feeds: the pieces that a line feed ends, each without
that line feed, in order, and the bytes that follow the last line feed. -/
def cutAtLineFeeds : List Nat → List (List Nat) × List Nat
  | [] => ([], [])
  | b :: data =>
    if b = LF then ([] :: (cutAtLineFeeds data).1, (cutAtLineFeeds data).2)
    else
      match (cutAtLineFeeds data).1 with
      | [] => ([], b :: (cutAtLineFeeds data).2)
      | piece :: pieces => ((b :: piece) :: pieces, (cutAtLineFeeds data).2)

/-- The bytes `cur` put in front of a cut stream: they join its first piece, or its
rest when no piece is complete. -/
def prependCur (cur : List Nat) (c : List (List Nat) × List Nat) : List (List Nat) × List Nat :=
  match c.1 with
  | [] => ([], cur ++ c.2)
  | piece :: pieces => ((cur ++ piece) :: pieces, c.2)

/-- The lines of a byte stream as the specification words them: the stream is cut at
each line feed, a piece ended by a line feed loses it together with a carriage return
just before it, and a non-empty rest after the last line feed is a line as it is. -/
def specLines (data : List Nat) : List GoString :=
  (cutAtLineFeeds data).1.map dropCR ++
    (if (cutAtLineFeeds data).2 = [] then [] else [(cutAtLineFeeds data).2])

/-- A stream written line by line: each line is its content followed by carriage
return and line feed when its flag is set, by a bare line feed otherwise. -/
def terminated (lines : List (GoString × Bool)) : List Nat :=
  (lines.map (fun p => p.1 ++ (if p.2 then [CR, LF] else [LF]))).flatten

/-! ## The command -/

/-- Go standard library, the test `strings.TrimSpace(s) == ""`: the string consists of
white-space runes only (`unicode.IsSpace`, on the UTF-8 encodings listed at
`firstRuneIsSpace`). -/
def isBlank : GoString → Bool
  | [] => true
  | [b] => (9 ≤ b ∧ b ≤ 13) ∨ b = 32
  | [b, c] =>
    if (9 ≤ b ∧ b ≤ 13) ∨ b = 32 then isBlank [c]
    else b = 0xC2 ∧ (c = 0x85 ∨ c = 0xA0)
  | b :: c :: d :: rest =>
    if (9 ≤ b ∧ b ≤ 13) ∨ b = 32 then isBlank (c :: d :: rest)
    else if b = 0xC2 ∧ (c = 0x85 ∨ c = 0xA0) then isBlank (d :: rest)
    else if (b = 0xE1 ∧ c = 0x9A ∧ d = 0x80) ∨
        (b = 0xE2 ∧ c = 0x80 ∧ ((0x80 ≤ d ∧ d ≤ 0x8A) ∨ d = 0xA8 ∨ d = 0xA9 ∨ d = 0xAF)) ∨
        (b = 0xE2 ∧ c = 0x81 ∧ d = 0x9F) ∨ (b = 0xE3 ∧ c = 0x80 ∧ d = 0x80) then
      isBlank rest
    else false

/-- The two error values the program declares, `ErrInvalidRegexp` and
`ErrNoNamedCaptureGroups`. -/
inductive Sentinel where
  | ErrInvalidRegexp
  | ErrNoNamedCaptureGroups
  deriving DecidableEq, Repr

/-- The text of a declared error value. -/
def Sentinel.Error : Sentinel → GoString
  | Sentinel.ErrInvalidRegexp => ascii "invalid regular expression syntax"
  | Sentinel.ErrNoNamedCaptureGroups =>
    ascii "the regular expression must contain at least one named capture group"

/-- The errors `run` returns: `fmt.Errorf("flag -regexp is required")`,
`fmt.Errorf("%w: %v", target, cause)`, a declared error value, or the error of
`processInput`. -/
inductive RunError where
  | flagRequired
  | wrapped (target : Sentinel) (cause : GoString)
  | sentinel (target : Sentinel)
  | stream (e : GoError)
  deriving DecidableEq, Repr

/-- Go standard library, `errors.Is(e, target)` for a declared error value `target`. -/
def RunError.Is : RunError → Sentinel → Bool
  | RunError.wrapped t _, target => t = target
  | RunError.sentinel t, target => t = target
  | _, _ => false

/-- The text of `e.Error()` for the errors `run` makes itself; the text of a stream
error is that of the stream and is left open. -/
def RunError.Error : RunError → Option GoString
  | RunError.flagRequired => some (ascii "flag -regexp is required")
  | RunError.wrapped t cause => some (t.Error ++ ascii ": " ++ cause)
  | RunError.sentinel t => some t.Error
  | RunError.stream _ => none

/-- How `run` ends. -/
inductive RunOutcome where
  | nil
  | error (e : RunError)
  | panic
  deriving DecidableEq, Repr

/-- What `run` leaves behind: the state of standard output, whether `usage()` printed
the help text on standard error, and how the call ended. -/
structure RunResult where
  stdout : Writer
  usage : Bool
  outcome : RunOutcome
  deriving DecidableEq

/-- Function `run`, after `flag.Parse()` has delivered the value `pattern` of the flag
`-regexp`. `Compile` is `regexp.Compile`, with the engine's message as its error.
`out`, the `bufio.Writer` on standard output, is the writer every `csv.Writer` of
`writeCSVRow` writes through and flushes, so that the final `out.Flush()` has nothing
left to write and no error of its own. -/
def run (Compile : GoString → Except GoString Regexp) (pattern : GoString) (stdin : Reader)
    (out : Writer) : RunResult :=
  if isBlank pattern then
    { stdout := out, usage := true, outcome := RunOutcome.error RunError.flagRequired }
  else
    match Compile pattern with
    | Except.error err =>
      { stdout := out, usage := false,
        outcome := RunOutcome.error (RunError.wrapped Sentinel.ErrInvalidRegexp err) }
    | Except.ok re =>
      match extractGroupNames re with
      | none => { stdout := out, usage := false, outcome := RunOutcome.panic }
      | some groupNames =>
        if groupNames.length = 0 then
          { stdout := out, usage := false,
            outcome := RunOutcome.error (RunError.sentinel Sentinel.ErrNoNamedCaptureGroups) }
        else
          match processInput stdin re groupNames out with
          | (out1, Outcome.nil) => { stdout := out1, usage := false, outcome := RunOutcome.nil }
          | (out1, Outcome.error e) =>
            { stdout := out1, usage := false, outcome := RunOutcome.error (RunError.stream e) }
          | (out1, Outcome.panic) =>
            { stdout := out1, usage := false, outcome := RunOutcome.panic }

/-! ## Engine instances and example inputs -/

/-- Class `\s` of package `regexp`: `[\t\n\f\r ]`. -/
def isSpaceByte (b : Nat) : Bool := b = 9 ∨ b = 10 ∨ b = 12 ∨ b = 13 ∨ b = 32

/-- Matching `^(?P<ts>\S+)\s+(?P<host>\S+)\s` against a line. Each of `\S+`, `\s+`,
`\S+` is followed by a byte of the opposite class, so each matches a maximal run. -/
def syslogFind (line : GoString) : Option (List GoString) :=
  let ts := line.takeWhile (fun b => !isSpaceByte b)
  let r1 := line.dropWhile (fun b => !isSpaceByte b)
  let ws := r1.takeWhile isSpaceByte
  let r2 := r1.dropWhile isSpaceByte
  let host := r2.takeWhile (fun b => !isSpaceByte b)
  let r3 := r2.dropWhile (fun b => !isSpaceByte b)
  if ts ≠ [] ∧ ws ≠ [] ∧ host ≠ [] ∧ r3 ≠ [] then
    some [ts ++ ws ++ host ++ r3.take 1, ts, host]
  else none

/-- The compiled pattern `^(?P<ts>\S+)\s+(?P<host>\S+)\s`. -/
def syslogRe : Regexp :=
  { SubexpNames := [[], ascii "ts", ascii "host"], FindStringSubmatch := syslogFind }

/-- The two-line input of the specification's example. -/
def syslogInput : Reader :=
  { data := ascii "2024-01-01T00:00:00+00:00 host1 kernel: msg A\n2024-01-01T00:00:01+00:00 host2 kernel: msg B\n",
    err := GoError.EOF }

/-- Matching `^(x+)(?P<a>y*)$` against a line: the anonymous group takes the leading
run of `x`, the named group the rest, which must consist of `y` only. -/
def anonFind (line : GoString) : Option (List GoString) :=
  let xs := line.takeWhile (fun b => b = 120)
  let rest := line.dropWhile (fun b => b = 120)
  if xs ≠ [] ∧ rest.all (fun b => b = 121) then some [line, xs, rest] else none

/-- The compiled pattern `^(x+)(?P<a>y*)$`: one anonymous and one named group. -/
def anonRe : Regexp :=
  { SubexpNames := [[], [], ascii "a"], FindStringSubmatch := anonFind }

/-- The example input with a line that does not match inserted between its two
lines. -/
def syslogInputNoise : Reader :=
  { data := ascii "2024-01-01T00:00:00+00:00 host1 kernel: msg A\nnoise\n2024-01-01T00:00:01+00:00 host2 kernel: msg B\n",
    err := GoError.EOF }

/-- A one-line input ended by carriage return and line feed. -/
def crlfInput : Reader := { data := ascii "t h x\r\n", err := GoError.EOF }

/-- The input `crlfInput` with the line `zzz`, ended by a bare line feed, inserted in
front. -/
def lfThenCrlfInput : Reader := { data := ascii "zzz\nt h x\r\n", err := GoError.EOF }

/-- A run of 4096 bytes `x`. -/
def longRun : List Nat := List.replicate 4096 120

/-- An input whose first line is longer than one buffer of `bufio.NewReader` and ends
with carriage return and line feed. -/
def longFirstLineInput : Reader :=
  { data := (ascii "t h " ++ longRun) ++ [CR, LF], err := GoError.EOF }

/-- An input whose first line ends with carriage return and line feed and whose
second line ends with a bare line feed. -/
def mixedInput : Reader := { data := ascii "t h x\r\nu v w\n", err := GoError.EOF }

/-- A final line that ends with a carriage return and has no line feed. -/
def crTailInput : Reader := { data := ascii "ab\r", err := GoError.EOF }

/-- A run of `bufferSizeMax` bytes `x`. -/
def hugeRun : List Nat := List.replicate bufferSizeMax 120

/-- A line of `bufferSizeMax` bytes followed by the line `t h x`. -/
def hugeLineInput : Reader :=
  { data := hugeRun ++ LF :: ascii "t h x\n", err := GoError.EOF }

/-- A run of 65537 bytes `x`. -/
def overlongRun : List Nat := List.replicate 65537 120

/-- An input whose only line, `t h ` followed by 65537 bytes `x`, is longer than
`logLineSizeMax`. -/
def overlongLineInput : Reader :=
  { data := (ascii "t h " ++ overlongRun) ++ [LF], err := GoError.EOF }

/-- An input whose first line is `t h x` and whose second line has `bufferSizeMax`
bytes. -/
def hugeSecondLineInput : Reader :=
  { data := ascii "t h x\n" ++ hugeRun ++ LF :: ascii "u v w\n", err := GoError.EOF }

/-- A writer with room for exactly the header `ts,host` and its line feed. -/
def headerOnlyWriter : Writer := { written := [], room := some 8, err := GoError.ioFailure 28 }

/-- A writer with room for the header and the first row of the example, 40 bytes. -/
def oneRowWriter : Writer := { written := [], room := some 40, err := GoError.ioFailure 28 }

/-- An input without any byte. -/
def emptyInput : Reader := { data := [], err := GoError.EOF }

/-- An input whose reading fails after the line `t h x` and the bytes `u v` have been
delivered. -/
def failingInput : Reader := { data := ascii "t h x\nu v", err := GoError.ioFailure 5 }

/-- The one-line input `t h x`, ended by a line feed. -/
def lineXInput : Reader := { data := ascii "t h x\n", err := GoError.EOF }

/-- The one-line input `u v w`, ended by a line feed. -/
def lineYInput : Reader := { data := ascii "u v w\n", err := GoError.EOF }

/-- The two-line input `t h x`, `u v w`, both ended by a line feed. -/
def lineXYInput : Reader := { data := ascii "t h x\nu v w\n", err := GoError.EOF }

/-- A sample that begins with a line feed. -/
def leadingLFInput : Reader := { data := ascii "\nt h x\r\n", err := GoError.EOF }

/-- Matching `^(x+)$` against a line. -/
def onlyXFind (line : GoString) : Option (List GoString) :=
  if line ≠ [] ∧ line.all (fun b => b = 120) then some [line, line] else none

/-- The compiled pattern `^(x+)$`: a single, anonymous group. -/
def onlyXRe : Regexp := { SubexpNames := [[], []], FindStringSubmatch := onlyXFind }

/-- The engine's compiler on the patterns of the examples; it rejects every other
pattern, with the message package `regexp` has for the pattern `(`. -/
def exampleCompile (pattern : GoString) : Except GoString Regexp :=
  if pattern = ascii "^(?P<ts>\\S+)\\s+(?P<host>\\S+)\\s" then Except.ok syslogRe
  else if pattern = ascii "^(x+)(?P<a>y*)$" then Except.ok anonRe
  else if pattern = ascii "^(x+)$" then Except.ok onlyXRe
  else Except.error (ascii "error parsing regexp: missing closing ): `(`")

/-- A writer that has written nothing and never fails. -/
def stdout : Writer := { written := [], room := none, err := GoError.ioFailure 32 }

/-! ## Lemmas on `processLine` and the loop -/

theorem foldlM_processLineStep (names subs : List GoString) :
    ∀ (vs ns : List GoString) (s : Nat) (st : List GoString × Bool),
      names.drop s = ns → subs.drop s = vs → vs.length ≤ ns.length →
      (List.range' s vs.length).foldlM (processLineStep names subs) st =
        some (st.1 ++ ((ns.zip vs).filter (fun p => p.1 ≠ [])).map Prod.snd,
          st.2 && ((ns.zip vs).filter (fun p => p.1 ≠ [])).all (fun p => p.2 = [])) := by
  intro vs
  induction vs with
  | nil => intro ns s st _ _ _; simp
  | cons v vs ih =>
    intro ns s st hn hs hlen
    cases ns with
    | nil => simp at hlen
    | cons n ns =>
      have hn1 : names[s]? = some n := by
        have := congrArg List.head? hn
        simpa [List.head?_drop] using this
      have hv1 : subs[s]? = some v := by
        have := congrArg List.head? hs
        simpa [List.head?_drop] using this
      have hn2 : names.drop (s + 1) = ns := by
        have := congrArg List.tail hn
        simpa [List.tail_drop] using this
      have hs2 : subs.drop (s + 1) = vs := by
        have := congrArg List.tail hs
        simpa [List.tail_drop] using this
      have hlen2 : vs.length ≤ ns.length := by simpa using hlen
      simp only [List.length_cons, List.range'_succ, List.foldlM_cons, processLineStep, hn1, hv1]
      by_cases hne : n = []
      · simp [hne, ih ns (s + 1) st hn2 hs2 hlen2]
      · simp only [hne, if_false]
        rw [show (some (st.1 ++ [v], if v ≠ [] then false else st.2) >>= fun s' =>
            List.foldlM (processLineStep names subs) s' (List.range' (s + 1) vs.length)) =
            List.foldlM (processLineStep names subs) (st.1 ++ [v], if v ≠ [] then false else st.2)
              (List.range' (s + 1) vs.length) from rfl]
        rw [ih ns (s + 1) _ hn2 hs2 hlen2]
        by_cases hv : v = [] <;> simp [hne, hv, List.zip_cons_cons, Bool.and_comm]

theorem processLine_of_match (re : Regexp) (line : GoString) (g : List GoString)
    (subs : List GoString) (hfind : re.FindStringSubmatch line = some subs)
    (hlen : subs.length ≤ re.SubexpNames.length) :
    processLine line re g =
      if (namedSlots re.SubexpNames subs).all (fun p => p.2 = []) then some ([], false)
      else some ((namedSlots re.SubexpNames subs).map Prod.snd, true) := by
  have h := foldlM_processLineStep re.SubexpNames subs (subs.drop 1) (re.SubexpNames.drop 1) 1
    ([], true) rfl rfl (by simp; omega)
  simp only [List.length_drop] at h
  unfold processLine
  rw [hfind]
  dsimp only
  rw [h]
  simp only [List.nil_append, Bool.true_and, namedSlots]

theorem processLine_of_nomatch (re : Regexp) (line : GoString) (g : List GoString)
    (hfind : re.FindStringSubmatch line = none) :
    processLine line re g = some ([], false) := by
  simp [processLine, hfind]

theorem processInputLoop_eq_writeRows (re : Regexp) (g : List GoString) (le : GoString)
    (scErr : Option GoError) :
    ∀ (lines : List GoString) (firstLine : Bool) (output : Writer),
      (∀ line ∈ lines, processLine line re g ≠ none) →
      processInputLoop re g le scErr lines firstLine output =
        finish scErr (writeRows le output (emittedRows g firstLine (dataRows re g lines))) := by
  intro lines
  induction lines with
  | nil => intro firstLine output _; simp [processInputLoop, dataRows, emittedRows, writeRows, finish]
  | cons line rest ih =>
    intro firstLine output hp
    have hrest : ∀ l ∈ rest, processLine l re g ≠ none := fun l hl => hp l (List.mem_cons_of_mem _ hl)
    have hline := hp line (List.mem_cons_self _ _)
    cases hpl : processLine line re g with
    | none => exact absurd hpl hline
    | some r =>
      obtain ⟨values, ok⟩ := r
      cases ok with
      | false =>
        have hacc : acceptedRow re g line = none := by simp [acceptedRow, hpl]
        rw [processInputLoop, hpl]
        simp only [dataRows, List.filterMap_cons, hacc]
        exact ih firstLine output hrest
      | true =>
        have hacc : acceptedRow re g line = some values := by simp [acceptedRow, hpl]
        rw [processInputLoop, hpl]
        simp only [dataRows, List.filterMap_cons, hacc]
        cases firstLine with
        | true =>
          simp only [if_true, emittedRows, writeRows]
          cases hw1 : writeCSVRow output g le with
          | mk o1 e1 =>
            cases e1 with
            | some e => simp [finish]
            | none =>
              simp only []
              cases hw2 : writeCSVRow o1 values le with
              | mk o2 e2 =>
                cases e2 with
                | some e => simp [finish]
                | none =>
                  simp only []
                  rw [ih false o2 hrest]
                  simp only [dataRows]
                  cases List.filterMap (acceptedRow re g) rest <;> simp [emittedRows]
        | false =>
          simp only [emittedRows, writeRows, Bool.false_eq_true, if_false]
          cases hw1 : writeCSVRow output values le with
          | mk o1 e1 =>
            cases e1 with
            | some e => simp [finish]
            | none =>
              simp only []
              rw [ih false o1 hrest]
              simp only [dataRows]
              cases List.filterMap (acceptedRow re g) rest <;> simp [emittedRows]

theorem writeRows_of_room_none (le : GoString) :
    ∀ (rows : List (List GoString)) (output : Writer), output.room = none →
      writeRows le output rows =
        ({ output with written := output.written ++
            (rows.map (csvWrite (decide (le = [CR, LF])))).flatten }, none) := by
  intro rows
  induction rows with
  | nil => intro output _; simp [writeRows]
  | cons row rows ih =>
    intro output h
    simp only [writeRows, writeCSVRow, Writer.Write, h]
    rw [ih _ rfl]
    simp [h]

theorem peekForLineEnding_ok (input : Reader) :
    ∃ le, peekForLineEnding input logLineSizeMax = Except.ok (input, le) ∧
      (le = [LF] ∨ le = [CR, LF]) := by
  simp only [peekForLineEnding, Reader.Peek, logLineSizeMax, defaultBufSize]
  simp only [show (64 * 1024 > 4096) = True from by simp, if_true]
  simp only [ne_eq, not_true_eq_false, and_false, if_false, reduceCtorEq, not_false_eq_true,
    Option.some.injEq, false_and]
  split
  · split <;> simp
  · simp

theorem processLine_ne_none_of_wellFormed (re : Regexp) (h : re.WellFormed) (line : GoString)
    (g : List GoString) : processLine line re g ≠ none := by
  cases hf : re.FindStringSubmatch line with
  | none => simp [processLine_of_nomatch re line g hf]
  | some subs =>
    rw [processLine_of_match re line g subs hf (le_of_eq (h.2 line subs hf))]
    split <;> simp

theorem processInput_eq_writeRows (input : Reader) (re : Regexp) (g : List GoString)
    (output : Writer) (hre : re.WellFormed) :
    ∃ le, peekForLineEnding input logLineSizeMax = Except.ok (input, le) ∧
      (le = [LF] ∨ le = [CR, LF]) ∧
      processInput input re g output =
        finish (openInput input).Err
          (writeRows le output (emittedRows g true (dataRows re g (openInput input).lines))) := by
  obtain ⟨le, hpeek, hle⟩ := peekForLineEnding_ok input
  refine ⟨le, hpeek, hle, ?_⟩
  simp only [processInput, hpeek]
  exact processInputLoop_eq_writeRows re g le _ _ true output
    (fun line _ => processLine_ne_none_of_wellFormed re hre line g)

theorem processInput_written (input : Reader) (re : Regexp) (g : List GoString)
    (output : Writer) (hre : re.WellFormed) (hw : output.room = none) :
    ∃ le, peekForLineEnding input logLineSizeMax = Except.ok (input, le) ∧
      (le = [LF] ∨ le = [CR, LF]) ∧
      (processInput input re g output).1.written =
        output.written ++
          ((emittedRows g true (dataRows re g (openInput input).lines)).map
            (csvWrite (decide (le = [CR, LF])))).flatten := by
  obtain ⟨le, hpeek, hle, h⟩ := processInput_eq_writeRows input re g output hre
  refine ⟨le, hpeek, hle, ?_⟩
  rw [h, writeRows_of_room_none le _ output hw]
  simp [finish]

theorem syslogRe_wellFormed : syslogRe.WellFormed := by
  refine ⟨rfl, ?_⟩
  intro line subs h
  simp only [syslogRe, syslogFind] at h
  split at h
  · cases h; rfl
  · cases h

theorem all_namedSlots_iff (names subs : List GoString) (hlen : subs.length = names.length) :
    ((namedSlots names subs).all (fun p => p.2 = []) = true) ↔
      ∀ idx, 1 ≤ idx → idx < subs.length → names[idx]? ≠ some [] → subs[idx]? = some [] := by
  simp only [namedSlots, List.all_eq_true, List.mem_filter, decide_eq_true_eq, and_imp]
  constructor
  · intro h idx h1 h2 hn
    have hi : idx < names.length := hlen ▸ h2
    have hp : (names[idx], subs[idx]) ∈ (names.drop 1).zip (subs.drop 1) := by
      rw [List.mem_iff_getElem?]
      refine ⟨idx - 1, ?_⟩
      rw [List.getElem?_zip_eq_some]
      simp only [List.getElem?_drop]
      rw [show 1 + (idx - 1) = idx by omega]
      simp [List.getElem?_eq_getElem, hi, h2]
    have := h _ hp (by
      intro hc
      apply hn
      simp only at hc
      rw [List.getElem?_eq_getElem hi, hc])
    simp only at this
    rw [List.getElem?_eq_getElem h2, this]
  · intro h p hp hne
    rw [List.mem_iff_getElem?] at hp
    obtain ⟨i, hi⟩ := hp
    rw [List.getElem?_zip_eq_some] at hi
    simp only [List.getElem?_drop] at hi
    have h2 : 1 + i < subs.length := by
      have := hi.2
      by_contra hc
      rw [List.getElem?_eq_none (by omega)] at this
      cases this
    have := h (1 + i) (by omega) h2 (by rw [hi.1]; simpa using hne)
    rw [hi.2] at this
    exact (Option.some.inj this)

theorem anonRe_wellFormed : anonRe.WellFormed := by
  refine ⟨rfl, ?_⟩
  intro line subs h
  simp only [anonRe, anonFind] at h
  split at h
  · cases h; rfl
  · cases h

theorem processInputLoop_fst_scErr (re : Regexp) (g : List GoString) (le : GoString)
    (e1 e2 : Option GoError) :
    ∀ (lines : List GoString) (firstLine : Bool) (output : Writer),
      (processInputLoop re g le e1 lines firstLine output).1 =
        (processInputLoop re g le e2 lines firstLine output).1 := by
  intro lines
  induction lines with
  | nil => intro firstLine output; simp [processInputLoop]
  | cons line rest ih =>
    intro firstLine output
    simp only [processInputLoop]
    rcases processLine line re g with _ | ⟨values, ok⟩
    · rfl
    · cases ok
      · exact ih firstLine output
      · cases firstLine
        · simp only [Bool.false_eq_true, if_false]
          rcases writeCSVRow output values le with ⟨o1, _ | e⟩
          · exact ih false o1
          · rfl
        · simp only [if_true]
          rcases writeCSVRow output g le with ⟨o1, _ | e⟩
          · simp only []
            rcases writeCSVRow o1 values le with ⟨o2, _ | e⟩
            · exact ih false o2
            · rfl
          · rfl

theorem processInputLoop_insert_nomatch (re : Regexp) (g : List GoString) (le : GoString)
    (e1 e2 : Option GoError) (line : GoString) (ys : List GoString)
    (hno : re.FindStringSubmatch line = none) :
    ∀ (xs : List GoString) (firstLine : Bool) (output : Writer),
      (processInputLoop re g le e1 (xs ++ ys) firstLine output).1 =
        (processInputLoop re g le e2 (xs ++ line :: ys) firstLine output).1 := by
  intro xs
  induction xs with
  | nil =>
    intro firstLine output
    simp only [List.nil_append]
    rw [processInputLoop.eq_def re g le e2 (line :: ys)]
    simp only [processLine_of_nomatch re line g hno]
    exact processInputLoop_fst_scErr re g le e1 e2 ys firstLine output
  | cons x xs ih =>
    intro firstLine output
    simp only [List.cons_append, processInputLoop]
    rcases processLine x re g with _ | ⟨values, ok⟩
    · rfl
    · cases ok
      · exact ih firstLine output
      · cases firstLine
        · simp only [Bool.false_eq_true, if_false]
          rcases writeCSVRow output values le with ⟨o1, _ | e⟩
          · exact ih false o1
          · rfl
        · simp only [if_true]
          rcases writeCSVRow output g le with ⟨o1, _ | e⟩
          · simp only []
            rcases writeCSVRow o1 values le with ⟨o2, _ | e⟩
            · exact ih false o2
            · rfl
          · rfl

theorem map_fst_namedSlots (names subs : List GoString) (hlen : subs.length = names.length) :
    (namedSlots names subs).map Prod.fst = (names.drop 1).filter (fun name => name ≠ []) := by
  simp only [namedSlots]
  have h : ((names.drop 1).zip (subs.drop 1)).map Prod.fst = names.drop 1 :=
    List.map_fst_zip _ _ (by simp [hlen])
  conv_rhs => rw [← h]
  rw [List.filter_map]
  rfl

theorem extractGroupNames_of_wellFormed (re : Regexp) (hre : re.WellFormed) :
    extractGroupNames re = some ((re.SubexpNames.drop 1).filter (fun name => name ≠ [])) := by
  obtain ⟨h, _⟩ := hre
  unfold extractGroupNames
  cases hn : re.SubexpNames with
  | nil => rw [hn] at h; cases h
  | cons a rest => simp

/-! ## Lemmas on `encoding/csv` -/

theorem writeQuotedBody_eq_flatMap (crlf : Bool) (field : GoString) :
    writeQuotedBody crlf field = field.flatMap (quotedByte crlf) := by
  induction field with
  | nil => rfl
  | cons c field ih => simp only [writeQuotedBody, List.flatMap_cons, ih, quotedByte]

theorem writeFields_succ (crlf : Bool) (record : List GoString) :
    ∀ n, writeFields crlf (n + 1) record =
      (record.map (fun field => csvSeparator :: writeField crlf field)).flatten := by
  induction record with
  | nil => intro n; rfl
  | cons f rest ih => intro n; simp [writeFields, ih (n + 1)]

theorem writeFields_zero_cons (crlf : Bool) (f : GoString) (rest : List GoString) :
    writeFields crlf 0 (f :: rest) =
      writeField crlf f ++ (rest.map (fun field => csvSeparator :: writeField crlf field)).flatten := by
  simp [writeFields, writeFields_succ]

theorem intercalate_cons_eq (sep : List Nat) (x : List Nat) (xs : List (List Nat)) :
    List.intercalate sep (x :: xs) = x ++ (xs.map (fun y => sep ++ y)).flatten := by
  induction xs generalizing x with
  | nil => simp [List.intercalate]
  | cons y ys ih =>
    have := ih y
    simp only [List.intercalate, List.intersperse, List.flatten_cons, List.map_cons] at this ⊢
    rw [this]
    simp

theorem writeFields_eq_intercalate (crlf : Bool) (record : List GoString) :
    writeFields crlf 0 record =
      List.intercalate [csvSeparator] (record.map (writeField crlf)) := by
  cases record with
  | nil => rfl
  | cons f rest =>
    rw [writeFields_zero_cons, List.map_cons, intercalate_cons_eq]
    simp [List.map_map, Function.comp_def]

theorem crlfTranslate_cons (crlf : Bool) (c : Nat) (f : GoString) :
    crlfTranslate crlf (c :: f) =
      (if crlf then (if c = CR then [] else if c = LF then [CR, LF] else [c]) else [c]) ++
        crlfTranslate crlf f := by
  cases crlf <;> simp [crlfTranslate]

theorem crlfTranslate_nil (crlf : Bool) : crlfTranslate crlf [] = [] := by
  cases crlf <;> simp [crlfTranslate]

theorem parseRecord_unquoted_run (fields : List GoString) (tail : List Nat) :
    ∀ (f acc : GoString),
      (∀ c ∈ f, c ≠ LF ∧ c ≠ CR ∧ c ≠ DQUOTE ∧ c ≠ csvSeparator) →
      parseRecord ParseState.unquoted acc fields (f ++ tail) =
        parseRecord ParseState.unquoted (acc ++ f) fields tail := by
  intro f
  induction f with
  | nil => intro acc _; simp
  | cons c f ih =>
    intro acc h
    obtain ⟨h1, h2, h3, h4⟩ := h c (List.mem_cons_self _ _)
    rw [List.cons_append, parseRecord]
    simp only [h1, h2, h3, h4, if_false, or_self]
    rw [ih (acc ++ [c]) (fun d hd => h d (List.mem_cons_of_mem _ hd))]
    simp

theorem parseRecord_quoted_run (crlf : Bool) (fields : List GoString) (tail : List Nat) :
    ∀ (f acc : GoString),
      parseRecord ParseState.quoted acc fields (writeQuotedBody crlf f ++ DQUOTE :: tail) =
        parseRecord ParseState.quoteSeen (acc ++ crlfTranslate crlf f) fields tail := by
  intro f
  induction f with
  | nil =>
    intro acc
    simp [writeQuotedBody, crlfTranslate_nil, parseRecord]
  | cons c f ih =>
    intro acc
    rw [crlfTranslate_cons]
    by_cases hq : c = DQUOTE
    · subst hq
      have : writeQuotedBody crlf (DQUOTE :: f) = DQUOTE :: DQUOTE :: writeQuotedBody crlf f := by
        simp [writeQuotedBody]
      rw [this]
      simp only [List.cons_append]
      rw [parseRecord]
      simp only [if_true]
      rw [parseRecord]
      simp only [if_true]
      rw [ih]
      cases crlf <;> simp [DQUOTE, CR, LF]
    · by_cases hcr : c = CR
      · subst hcr
        cases crlf
        · have : writeQuotedBody false (CR :: f) = CR :: writeQuotedBody false f := by
            simp [writeQuotedBody, CR, DQUOTE]
          rw [this, List.cons_append, parseRecord]
          simp only [hq, if_false]
          rw [ih]
          simp
        · have : writeQuotedBody true (CR :: f) = writeQuotedBody true f := by
            simp [writeQuotedBody, CR, DQUOTE]
          rw [this, ih]
          simp
      · by_cases hlf : c = LF
        · subst hlf
          cases crlf
          · have : writeQuotedBody false (LF :: f) = LF :: writeQuotedBody false f := by
              simp [writeQuotedBody, CR, DQUOTE, LF]
            rw [this, List.cons_append, parseRecord]
            simp only [hq, if_false]
            rw [ih]
            simp [LF, CR]
          · have : writeQuotedBody true (LF :: f) = CR :: LF :: writeQuotedBody true f := by
              simp [writeQuotedBody, CR, DQUOTE, LF]
            rw [this]
            simp only [List.cons_append]
            rw [parseRecord]
            simp only [show ¬ (CR = DQUOTE) by decide, if_false]
            rw [parseRecord]
            simp only [show ¬ (LF = DQUOTE) by decide, if_false]
            rw [ih]
            simp [LF, CR]
        · have : writeQuotedBody crlf (c :: f) = c :: writeQuotedBody crlf f := by
            simp [writeQuotedBody, hq, hcr, hlf]
          rw [this, List.cons_append, parseRecord]
          simp only [hq, if_false]
          rw [ih]
          cases crlf <;> simp [hcr, hlf]

theorem plain_of_not_fieldNeedsQuotes (f : GoString) (h : fieldNeedsQuotes f = false) :
    ∀ c ∈ f, c ≠ LF ∧ c ≠ CR ∧ c ≠ DQUOTE ∧ c ≠ csvSeparator := by
  intro c hc
  unfold fieldNeedsQuotes at h
  split at h
  · rename_i h0; rw [h0] at hc; cases hc
  · split at h
    · cases h
    · split at h
      · cases h
      · rename_i hany
        simp only [List.any_eq_true, decide_eq_true_eq, not_exists, not_and, not_or] at hany
        exact hany c hc

theorem crlfTranslate_of_plain (crlf : Bool) (f : GoString)
    (h : ∀ c ∈ f, c ≠ LF ∧ c ≠ CR) : crlfTranslate crlf f = f := by
  induction f with
  | nil => exact crlfTranslate_nil crlf
  | cons c f ih =>
    rw [crlfTranslate_cons, ih (fun d hd => h d (List.mem_cons_of_mem _ hd))]
    obtain ⟨h1, h2⟩ := h c (List.mem_cons_self _ _)
    cases crlf <;> simp [h1, h2]

theorem parseRecord_field (crlf : Bool) (f : GoString) (fields : List GoString)
    (d : Nat) (rest : List Nat) (hd : d = csvSeparator ∨ d = LF ∨ d = CR) :
    parseRecord ParseState.fieldStart [] fields (writeField crlf f ++ d :: rest) =
      afterField (crlfTranslate crlf f) fields d rest := by
  have hdq : d ≠ DQUOTE := by
    rcases hd with h | h | h <;> rw [h] <;> decide
  have hafter : ∀ (st : ParseState) (acc : GoString),
      st = ParseState.unquoted ∨ st = ParseState.quoteSeen →
      parseRecord st acc fields (d :: rest) = afterField acc fields d rest := by
    intro st acc hst
    rcases hst with h | h <;> subst h <;> rw [parseRecord] <;> simp only [hdq, if_false, afterField]
    all_goals
      by_cases hs : d = csvSeparator
      · simp [hs]
      · have hd2 : d = LF ∨ d = CR := by
          rcases hd with h | h | h
          · exact absurd h hs
          · exact Or.inl h
          · exact Or.inr h
        simp [hs, hd2]
  unfold writeField
  by_cases hq : fieldNeedsQuotes f = true
  · simp only [hq, if_true, List.append_assoc, List.singleton_append, List.cons_append]
    rw [parseRecord]
    simp only [if_true, List.nil_append]
    rw [parseRecord_quoted_run, List.nil_append]
    exact hafter _ _ (Or.inr rfl)
  · have hq2 : fieldNeedsQuotes f = false := by simpa using hq
    have hplain := plain_of_not_fieldNeedsQuotes f hq2
    simp only [hq2, Bool.false_eq_true, if_false]
    rw [crlfTranslate_of_plain crlf f (fun c hc => ⟨(hplain c hc).1, (hplain c hc).2.1⟩)]
    cases f with
    | nil =>
      rw [List.nil_append, parseRecord]
      simp only [hdq, if_false, afterField]
      by_cases hs : d = csvSeparator
      · simp [hs]
      · have hd2 : d = LF ∨ d = CR := by
          rcases hd with h | h | h
          · exact absurd h hs
          · exact Or.inl h
          · exact Or.inr h
        simp [hs, hd2]
    | cons c f =>
      obtain ⟨h1, h2, h3, h4⟩ := hplain c (List.mem_cons_self _ _)
      rw [List.cons_append, parseRecord]
      simp only [h1, h2, h3, h4, if_false, or_self]
      rw [parseRecord_unquoted_run fields (d :: rest) f [c]
        (fun e he => hplain e (List.mem_cons_of_mem _ he))]
      exact hafter _ _ (Or.inl rfl)

theorem parseRecord_fields (crlf : Bool) :
    ∀ (rest : List GoString) (f : GoString) (fields : List GoString),
      parseRecord ParseState.fieldStart [] fields
        (writeField crlf f ++
          (rest.map (fun field => csvSeparator :: writeField crlf field)).flatten ++
          (if crlf then [CR, LF] else [LF])) =
        some (fields ++ (f :: rest).map (crlfTranslate crlf)) := by
  intro rest
  induction rest with
  | nil =>
    intro f fields
    cases crlf
    · simp only [List.map_nil, List.flatten_nil, List.append_nil, Bool.false_eq_true, if_false]
      rw [parseRecord_field false f fields LF [] (Or.inr (Or.inl rfl))]
      simp [afterField, endsRecord, LF, csvSeparator]
    · simp only [List.map_nil, List.flatten_nil, List.append_nil, if_true]
      rw [parseRecord_field true f fields CR [LF] (Or.inr (Or.inr rfl))]
      simp [afterField, endsRecord, LF, CR, csvSeparator]
  | cons g rest ih =>
    intro f fields
    simp only [List.map_cons, List.flatten_cons, List.cons_append, List.append_assoc]
    rw [parseRecord_field crlf f fields csvSeparator _ (Or.inl rfl)]
    simp only [afterField, if_true]
    have := ih g (fields ++ [crlfTranslate crlf f])
    simp only [List.append_assoc] at this
    rw [this]
    simp

theorem parseCSVRecord_csvWrite (crlf : Bool) (values : List GoString) (hne : values ≠ []) :
    parseCSVRecord (csvWrite crlf values) = some (values.map (crlfTranslate crlf)) := by
  cases values with
  | nil => exact absurd rfl hne
  | cons f rest =>
    unfold parseCSVRecord csvWrite
    rw [writeFields_zero_cons]
    simpa using parseRecord_fields crlf rest f []

/-! ## Lemmas on the look-ahead and the scanner -/

theorem IndexByte_append (c : Nat) : ∀ (pre s : List Nat), c ∉ pre →
    IndexByte (pre ++ s) c = (IndexByte s c).map (fun i => i + pre.length) := by
  intro pre
  induction pre with
  | nil => intro s _; simp
  | cons b pre ih =>
    intro s h
    have hb : b ≠ c := fun e => h (e ▸ List.mem_cons_self _ _)
    have hpre : c ∉ pre := fun e => h (List.mem_cons_of_mem _ e)
    rw [List.cons_append, IndexByte, if_neg hb, ih s hpre]
    cases IndexByte s c <;> simp [Nat.add_assoc]

theorem IndexByte_eq_some (c : Nat) : ∀ (s : List Nat) (idx : Nat), IndexByte s c = some idx →
    ∃ pre post, s = pre ++ c :: post ∧ c ∉ pre ∧ pre.length = idx := by
  intro s
  induction s with
  | nil => intro idx h; simp [IndexByte] at h
  | cons b s ih =>
    intro idx h
    unfold IndexByte at h
    split at h
    · rename_i hb
      cases h
      exact ⟨[], s, by simp [hb], by simp, rfl⟩
    · rename_i hb
      cases hi : IndexByte s c with
      | none => simp [hi] at h
      | some i =>
        simp only [hi, Option.map_some', Option.some.injEq] at h
        obtain ⟨pre, post, hs, hpre, hlen⟩ := ih i hi
        refine ⟨b :: pre, post, by simp [hs], ?_, by simp [hlen, h]⟩
        simp only [List.mem_cons, not_or]
        exact ⟨fun e => hb e.symm, hpre⟩

theorem IndexByte_eq_none (c : Nat) : ∀ (s : List Nat), IndexByte s c = none → c ∉ s := by
  intro s
  induction s with
  | nil => intro _; simp
  | cons b s ih =>
    intro h
    unfold IndexByte at h
    split at h
    · cases h
    · rename_i hb
      simp only [Option.map_eq_none'] at h
      simp only [List.mem_cons, not_or]
      exact ⟨fun e => hb e.symm, ih h⟩

theorem peekForLineEnding_spec (input : Reader) (n : Nat) (r : Reader) (le : GoString)
    (h : peekForLineEnding input n = Except.ok (r, le)) :
    r = input ∧
    (le = [CR, LF] ↔
      ∃ pre post, (input.Peek defaultBufSize n).1 = pre ++ CR :: LF :: post ∧ LF ∉ pre) ∧
    (le ≠ [CR, LF] → le = [LF]) := by
  unfold peekForLineEnding at h
  simp only at h
  generalize (input.Peek defaultBufSize n).1 = sample at h ⊢
  split at h
  · cases h
  · cases hi : IndexByte sample LF with
    | none =>
      simp only [hi] at h
      cases h
      refine ⟨rfl, ⟨fun e => (by cases e), ?_⟩, fun _ => rfl⟩
      rintro ⟨pre, post, hsample, _⟩
      exfalso
      have := IndexByte_eq_none LF sample hi
      rw [hsample] at this
      simp at this
    | some idx =>
      simp only [hi] at h
      obtain ⟨pre, post, hsample, hpre, hlen⟩ := IndexByte_eq_some LF sample idx hi
      split at h
      · rename_i hcond
        cases h
        refine ⟨rfl, ⟨fun _ => ?_, fun _ => rfl⟩, fun e => absurd rfl e⟩
        obtain ⟨hpos, hcr⟩ := hcond
        have hprene : pre ≠ [] := by
          intro e
          rw [e] at hlen
          simp at hlen
          omega
        obtain ⟨pre2, x, hx⟩ : ∃ pre2 x, pre = pre2 ++ [x] :=
          ⟨pre.dropLast, pre.getLast hprene, (List.dropLast_append_getLast hprene).symm⟩
        subst hx
        have hxcr : x = CR := by
          rw [hsample, ← hlen] at hcr
          simp at hcr
          rw [List.getElem_append_right (le_refl _)] at hcr
          simpa using hcr
        subst hxcr
        refine ⟨pre2, post, by simp [hsample], ?_⟩
        intro e
        exact hpre (List.mem_append_left _ e)
      · rename_i hcond
        cases h
        refine ⟨rfl, ⟨fun e => (by cases e), ?_⟩, fun _ => rfl⟩
        rintro ⟨pre2, post2, hsample2, hpre2⟩
        exfalso
        apply hcond
        have hidx : IndexByte sample LF = some (pre2.length + 1) := by
          rw [hsample2, IndexByte_append LF pre2 _ hpre2]
          simp [IndexByte, CR, LF, Nat.add_comm]
        rw [hi] at hidx
        cases hidx
        refine ⟨by omega, ?_⟩
        rw [hsample2]
        simp
        rw [List.getElem_append_right (le_refl _)]
        simp

theorem getLast?_append_ne (x : Nat) (a b : List Nat)
    (ha : a.getLast? ≠ some x) (hb : b.getLast? ≠ some x) : (a ++ b).getLast? ≠ some x := by
  rw [List.getLast?_append]
  cases h : b.getLast? with
  | none => simpa using ha
  | some y => rw [h] at hb; simpa using hb

theorem writeField_getLast?_ne_CR (crlf : Bool) (f : GoString) :
    (writeField crlf f).getLast? ≠ some CR := by
  unfold writeField
  by_cases hq : fieldNeedsQuotes f = true
  · rw [if_pos hq, List.getLast?_concat]
    decide
  · have hq2 : fieldNeedsQuotes f = false := by simpa using hq
    simp only [hq2, Bool.false_eq_true, if_false]
    intro h
    have hmem := List.mem_of_getLast?_eq_some h
    exact (plain_of_not_fieldNeedsQuotes f hq2 CR hmem).2.1 rfl

theorem writeFields_getLast?_ne_CR (crlf : Bool) :
    ∀ (record : List GoString) (n : Nat), (writeFields crlf n record).getLast? ≠ some CR := by
  intro record
  induction record with
  | nil => intro n; simp [writeFields]
  | cons f rest ih =>
    intro n
    unfold writeFields
    apply getLast?_append_ne _ _ _ _ (ih (n + 1))
    apply getLast?_append_ne _ _ _ _ (writeField_getLast?_ne_CR crlf f)
    split <;> simp [csvSeparator, CR]

theorem peekForLineEnding_of_not_mem (input : Reader)
    (h : LF ∉ input.data.take defaultBufSize) :
    peekForLineEnding input logLineSizeMax = Except.ok (input, [LF]) := by
  obtain ⟨le, hpeek, _⟩ := peekForLineEnding_ok input
  have hspec := peekForLineEnding_spec input logLineSizeMax input le hpeek
  have hsample : (input.Peek defaultBufSize logLineSizeMax).1 = input.data.take defaultBufSize := by
    simp [Reader.Peek, logLineSizeMax, defaultBufSize]
  have hne : le ≠ [CR, LF] := by
    intro e
    obtain ⟨pre, post, hs, _⟩ := hspec.2.1.1 e
    rw [hsample] at hs
    apply h
    rw [hs]
    simp
  rw [hpeek, hspec.2.2 hne]

theorem scanLines_run (maxTokenSize : Nat) (err : GoError) (rest : List Nat) :
    ∀ (run cur : List Nat), LF ∉ run → cur.length + run.length ≤ maxTokenSize →
      scanLines maxTokenSize err (run ++ rest) cur =
        scanLines maxTokenSize err rest (cur ++ run) := by
  intro run
  induction run with
  | nil => intro cur _ _; simp
  | cons b run ih =>
    intro cur hlf hlen
    have hb : b ≠ LF := fun e => hlf (e ▸ List.mem_cons_self _ _)
    have hrun : LF ∉ run := fun e => hlf (List.mem_cons_of_mem _ e)
    simp only [List.length_cons] at hlen
    rw [List.cons_append, scanLines]
    rw [if_neg (by omega), if_neg hb, ih (cur ++ [b]) hrun (by simp; omega)]
    simp

theorem scanLines_last_line (maxTokenSize : Nat) (line : List Nat)
    (hlf : LF ∉ line) (hlen : line.length + 1 < maxTokenSize) :
    scanLines maxTokenSize GoError.EOF (line ++ [CR, LF]) [] = ([line], none) := by
  have hlf2 : LF ∉ line ++ [CR] := by
    intro h
    rcases List.mem_append.1 h with h | h
    · exact hlf h
    · simp [CR, LF] at h
  have h := scanLines_run maxTokenSize GoError.EOF [LF] (line ++ [CR]) [] hlf2 (by simp; omega)
  simp only [List.append_assoc, List.singleton_append, List.nil_append] at h
  have h0 : ¬ maxTokenSize = 0 := by omega
  rw [h, scanLines]
  rw [if_neg (by simp; omega), if_pos rfl]
  simp [scanLines, dropCR, h0]

theorem longRun_length : longRun.length = 4096 := by
  rw [longRun, List.length_replicate]

theorem not_mem_longRun : LF ∉ longRun := by
  intro h
  rw [longRun] at h
  have := List.eq_of_mem_replicate h
  revert this
  decide

theorem processInput_of_peek (input : Reader) (re : Regexp) (g : List GoString)
    (output : Writer) (le : GoString)
    (hpeek : peekForLineEnding input logLineSizeMax = Except.ok (input, le)) :
    processInput input re g output =
      processInputLoop re g le (scanLines bufferSizeMax input.err input.data []).2
        (scanLines bufferSizeMax input.err input.data []).1 true output := by
  simp only [processInput, hpeek]
  rfl

theorem not_mem_longFirstLine : LF ∉ ascii "t h " ++ longRun := by
  intro h
  rcases List.mem_append.1 h with h | h
  · revert h
    decide
  · exact not_mem_longRun h

theorem longFirstLine_length : (ascii "t h " ++ longRun).length = 4100 := by
  rw [List.length_append, longRun_length]
  rfl

/-! ## Lemmas on the scanner and the cut of a stream -/

theorem prependCur_nil (c : List (List Nat) × List Nat) : prependCur [] c = c := by
  obtain ⟨ps, r⟩ := c
  cases ps <;> simp [prependCur]

theorem cutAtLineFeeds_cons_LF (data : List Nat) :
    cutAtLineFeeds (LF :: data) = ([] :: (cutAtLineFeeds data).1, (cutAtLineFeeds data).2) := by
  simp [cutAtLineFeeds]

theorem prependCur_cut_cons (cur : List Nat) (b : Nat) (data : List Nat) (hb : b ≠ LF) :
    prependCur cur (cutAtLineFeeds (b :: data)) = prependCur (cur ++ [b]) (cutAtLineFeeds data) := by
  rw [cutAtLineFeeds, if_neg hb]
  cases h : (cutAtLineFeeds data).1 with
  | nil => simp [prependCur, h]
  | cons p ps => simp [prependCur, h]

theorem scanLines_append (maxTokenSize : Nat) (err : GoError) (more : List Nat) :
    ∀ (pre cur : List Nat),
      (∀ q ∈ (prependCur cur (cutAtLineFeeds pre)).1, q.length < maxTokenSize) →
      ((cutAtLineFeeds pre).2 = [] ∨
        (prependCur cur (cutAtLineFeeds pre)).2.length ≤ maxTokenSize) →
      scanLines maxTokenSize err (pre ++ more) cur =
        ((prependCur cur (cutAtLineFeeds pre)).1.map dropCR ++
            (scanLines maxTokenSize err more (prependCur cur (cutAtLineFeeds pre)).2).1,
          (scanLines maxTokenSize err more (prependCur cur (cutAtLineFeeds pre)).2).2) := by
  intro pre
  induction pre with
  | nil => intro cur _ _; simp [cutAtLineFeeds, prependCur]
  | cons b pre ih =>
    intro cur hpieces htail
    by_cases hb : b = LF
    · subst hb
      rw [cutAtLineFeeds_cons_LF] at hpieces htail ⊢
      simp only [prependCur, List.append_nil, List.mem_cons, forall_eq_or_imp] at hpieces htail ⊢
      rw [List.cons_append, scanLines, if_neg (by omega), if_pos rfl]
      have h := ih [] (by rw [prependCur_nil]; exact hpieces.2)
        (by rw [prependCur_nil]; exact htail.elim Or.inl (fun h => Or.inr h))
      rw [prependCur_nil] at h
      rw [h]
      simp
    · have hcur : cur.length < maxTokenSize := by
        rw [cutAtLineFeeds, if_neg hb] at hpieces htail
        cases h : (cutAtLineFeeds pre).1 with
        | nil =>
          simp only [h, prependCur] at htail
          rcases htail with h2 | h2
          · simp at h2
          · simp at h2; omega
        | cons p ps =>
          simp only [h, prependCur, List.mem_cons, forall_eq_or_imp] at hpieces
          have := hpieces.1
          simp at this
          omega
      have htail2 : (cutAtLineFeeds pre).2 = [] ∨
          (prependCur (cur ++ [b]) (cutAtLineFeeds pre)).2.length ≤ maxTokenSize := by
        rw [← prependCur_cut_cons cur b pre hb]
        rcases htail with h2 | h2
        · rw [cutAtLineFeeds, if_neg hb] at h2
          cases h : (cutAtLineFeeds pre).1 with
          | nil => simp [h] at h2
          | cons p ps => simp only [h] at h2; exact Or.inl h2
        · exact Or.inr h2
      rw [prependCur_cut_cons cur b pre hb] at hpieces ⊢
      rw [List.cons_append, scanLines, if_neg (by omega), if_neg hb]
      exact ih (cur ++ [b]) hpieces htail2

theorem scanLines_too_long (maxTokenSize : Nat) (err : GoError) (rest : List Nat) :
    ∀ (long cur : List Nat), LF ∉ long → maxTokenSize ≤ cur.length + long.length →
      scanLines maxTokenSize err (long ++ rest) cur = ([], some GoError.ErrTooLong) := by
  intro long
  induction long with
  | nil =>
    intro cur _ hlen
    simp only [List.length_nil, Nat.add_zero] at hlen
    cases rest with
    | nil => simp [scanLines, hlen]
    | cons b rest => simp [scanLines, hlen]
  | cons b long ih =>
    intro cur hlf hlen
    have hb : b ≠ LF := fun e => hlf (e ▸ List.mem_cons_self _ _)
    have hlong : LF ∉ long := fun e => hlf (List.mem_cons_of_mem _ e)
    rw [List.cons_append, scanLines]
    by_cases hc : cur.length ≥ maxTokenSize
    · rw [if_pos hc]
    · rw [if_neg hc, if_neg hb]
      exact ih (cur ++ [b]) hlong (by simp at hlen ⊢; omega)

theorem scanLines_eq_cut (maxTokenSize : Nat) (err : GoError) (data : List Nat)
    (hpieces : ∀ q ∈ (cutAtLineFeeds data).1, q.length < maxTokenSize)
    (htail : (cutAtLineFeeds data).2.length < maxTokenSize) :
    scanLines maxTokenSize err data [] =
      ((cutAtLineFeeds data).1.map dropCR ++
          (if (cutAtLineFeeds data).2 = [] then [] else [dropCR (cutAtLineFeeds data).2]),
        if err = GoError.EOF then none else some err) := by
  have h := scanLines_append maxTokenSize err [] data []
    (by rw [prependCur_nil]; exact hpieces) (by rw [prependCur_nil]; exact Or.inr (by omega))
  rw [prependCur_nil, List.append_nil] at h
  rw [h, scanLines, if_neg (by omega)]

theorem cutAtLineFeeds_spec : ∀ (data : List Nat),
    ((cutAtLineFeeds data).1.map (fun piece => piece ++ [LF])).flatten ++ (cutAtLineFeeds data).2 =
      data ∧
    (∀ piece ∈ (cutAtLineFeeds data).1, LF ∉ piece) ∧ LF ∉ (cutAtLineFeeds data).2 := by
  intro data
  induction data with
  | nil => simp [cutAtLineFeeds]
  | cons b data ih =>
    obtain ⟨h1, h2, h3⟩ := ih
    by_cases hb : b = LF
    · subst hb
      rw [cutAtLineFeeds_cons_LF]
      refine ⟨by simpa using h1, ?_, h3⟩
      intro piece hp
      rcases List.mem_cons.1 hp with h | h
      · subst h; simp
      · exact h2 piece h
    · rw [cutAtLineFeeds, if_neg hb]
      cases h : (cutAtLineFeeds data).1 with
      | nil =>
        rw [h] at h1
        simp only [List.map_nil, List.flatten_nil, List.nil_append] at h1 ⊢
        refine ⟨by rw [h1], by simp, ?_⟩
        simp only [List.mem_cons, not_or]
        exact ⟨fun e => hb e.symm, h3⟩
      | cons p ps =>
        rw [h] at h1 h2
        refine ⟨by simpa using h1, ?_, h3⟩
        intro piece hp
        rcases List.mem_cons.1 hp with hq | hq
        · subst hq
          simp only [List.mem_cons, not_or]
          exact ⟨fun e => hb e.symm, h2 p (List.mem_cons_self _ _)⟩
        · exact h2 piece (List.mem_cons_of_mem _ hq)

theorem cutAtLineFeeds_append_LF : ∀ (c rest : List Nat), LF ∉ c →
    cutAtLineFeeds (c ++ LF :: rest) =
      (c :: (cutAtLineFeeds rest).1, (cutAtLineFeeds rest).2) := by
  intro c
  induction c with
  | nil => intro rest _; simp [cutAtLineFeeds]
  | cons b c ih =>
    intro rest h
    have hb : b ≠ LF := fun e => h (e ▸ List.mem_cons_self _ _)
    have hc : LF ∉ c := fun e => h (List.mem_cons_of_mem _ e)
    rw [List.cons_append, cutAtLineFeeds, if_neg hb, ih rest hc]

theorem dropCR_concat_CR (c : List Nat) : dropCR (c ++ [CR]) = c := by
  simp [dropCR]

theorem dropCR_of_getLast? (c : List Nat) (h : c.getLast? ≠ some CR) : dropCR c = c := by
  simp [dropCR, h]

theorem cutAtLineFeeds_terminated : ∀ (lines : List (GoString × Bool)),
    (∀ p ∈ lines, LF ∉ p.1) →
    cutAtLineFeeds (terminated lines) =
      (lines.map (fun p => p.1 ++ (if p.2 then [CR] else [])), []) := by
  intro lines
  induction lines with
  | nil => intro _; simp [terminated, cutAtLineFeeds]
  | cons p lines ih =>
    intro h
    have hp := h p (List.mem_cons_self _ _)
    have hrest := ih (fun q hq => h q (List.mem_cons_of_mem _ hq))
    have hstream : terminated (p :: lines) =
        (p.1 ++ (if p.2 then [CR] else [])) ++ LF :: terminated lines := by
      cases hp2 : p.2 <;> simp [terminated, hp2]
    have hnot : LF ∉ p.1 ++ (if p.2 then [CR] else []) := by
      intro hmem
      rcases List.mem_append.1 hmem with h1 | h1
      · exact hp h1
      · cases hp2 : p.2 <;> simp [hp2, CR, LF] at h1
    rw [hstream, cutAtLineFeeds_append_LF _ _ hnot, hrest]
    simp

theorem map_dropCR_terminated (lines : List (GoString × Bool))
    (h : ∀ p ∈ lines, p.1.getLast? ≠ some CR) :
    (lines.map (fun p => p.1 ++ (if p.2 then [CR] else []))).map dropCR =
      lines.map Prod.fst := by
  rw [List.map_map]
  apply List.map_congr_left
  intro p hp
  simp only [Function.comp]
  cases hp2 : p.2
  · simpa using dropCR_of_getLast? p.1 (h p hp)
  · simpa using dropCR_concat_CR p.1

theorem not_mem_dropCR (c : List Nat) (h : LF ∉ c) : LF ∉ dropCR c := by
  unfold dropCR
  split
  · exact fun e => h (List.mem_of_mem_dropLast e)
  · exact h

theorem hugeRun_length : hugeRun.length = bufferSizeMax := by
  rw [hugeRun, List.length_replicate]

theorem not_mem_hugeRun : LF ∉ hugeRun := by
  intro h
  rw [hugeRun] at h
  have := List.eq_of_mem_replicate h
  revert this
  decide

theorem specLines_ne_nil_of_mem (data : List Nat) (h : LF ∈ data) : specLines data ≠ [] := by
  obtain ⟨h1, _, h3⟩ := cutAtLineFeeds_spec data
  unfold specLines
  cases hc : (cutAtLineFeeds data).1 with
  | nil =>
    rw [hc] at h1
    simp only [List.map_nil, List.flatten_nil, List.nil_append] at h1
    rw [h1] at h3
    exact absurd h h3
  | cons p ps => simp

theorem scanner_lines_eq (input : Reader) :
    (openInput input).lines = (scanLines bufferSizeMax input.err input.data []).1 := rfl

theorem scanner_Err_eq (input : Reader) :
    (openInput input).Err = (scanLines bufferSizeMax input.err input.data []).2 := rfl

theorem scanLines_hugeLineInput :
    scanLines bufferSizeMax hugeLineInput.err hugeLineInput.data [] =
      ([], some GoError.ErrTooLong) :=
  scanLines_too_long bufferSizeMax GoError.EOF (LF :: ascii "t h x\n") hugeRun []
    not_mem_hugeRun (by rw [hugeRun_length]; exact Nat.le_add_left _ _)

theorem mem_hugeLineInput : LF ∈ hugeLineInput.data :=
  List.mem_append_right _ (List.mem_cons_self _ _)

theorem scanLines_long_line (maxTokenSize : Nat) (err : GoError) (pre long rest : List Nat)
    (hpre : (cutAtLineFeeds pre).2 = [])
    (hshort : ∀ q ∈ (cutAtLineFeeds pre).1, q.length < maxTokenSize)
    (hlf : LF ∉ long) (hlen : maxTokenSize ≤ long.length) :
    scanLines maxTokenSize err (pre ++ long ++ rest) [] =
      ((cutAtLineFeeds pre).1.map dropCR, some GoError.ErrTooLong) := by
  have h := scanLines_append maxTokenSize err (long ++ rest) pre []
    (by rw [prependCur_nil]; exact hshort) (Or.inl hpre)
  rw [prependCur_nil, hpre] at h
  rw [scanLines_too_long maxTokenSize err rest long [] hlf (by simpa using hlen)] at h
  rw [List.append_assoc, h]
  simp

theorem scanLines_single_line (maxTokenSize : Nat) (line : List Nat)
    (hlf : LF ∉ line) (hcr : line.getLast? ≠ some CR) (hlen : line.length < maxTokenSize) :
    scanLines maxTokenSize GoError.EOF (line ++ [LF]) [] = ([line], none) := by
  have h := scanLines_run maxTokenSize GoError.EOF [LF] line [] hlf (by simp; omega)
  have h0 : ¬ maxTokenSize = 0 := by omega
  rw [h, List.nil_append, scanLines]
  rw [if_neg (by omega), if_pos rfl, dropCR_of_getLast? line hcr]
  simp [scanLines, h0]

theorem overlongRun_length : overlongRun.length = 65537 := by
  rw [overlongRun, List.length_replicate]

theorem not_mem_overlongRun (c : Nat) (hc : c ≠ 120) : c ∉ overlongRun := by
  intro h
  rw [overlongRun] at h
  exact hc (List.eq_of_mem_replicate h)

theorem overlongLine_length : (ascii "t h " ++ overlongRun).length = 65541 := by
  rw [List.length_append, overlongRun_length]
  rfl

theorem not_mem_overlongLine : LF ∉ ascii "t h " ++ overlongRun := by
  intro h
  rcases List.mem_append.1 h with h | h
  · revert h
    decide
  · exact not_mem_overlongRun LF (by decide) h

theorem overlongLine_getLast? : (ascii "t h " ++ overlongRun).getLast? ≠ some CR := by
  apply getLast?_append_ne
  · decide
  · intro h
    exact not_mem_overlongRun CR (by decide) (List.mem_of_getLast?_eq_some h)

theorem scanLines_overlongLineInput :
    scanLines bufferSizeMax overlongLineInput.err overlongLineInput.data [] =
      ([ascii "t h " ++ overlongRun], none) :=
  scanLines_single_line bufferSizeMax (ascii "t h " ++ overlongRun) not_mem_overlongLine
    overlongLine_getLast? (by rw [overlongLine_length]; decide)

theorem peekForLineEnding_overlongLineInput :
    peekForLineEnding overlongLineInput logLineSizeMax = Except.ok (overlongLineInput, [LF]) := by
  apply peekForLineEnding_of_not_mem
  intro hmem
  rw [overlongLineInput] at hmem
  rw [List.take_append_of_le_length (by rw [overlongLine_length]; decide)] at hmem
  exact not_mem_overlongLine (List.mem_of_mem_take hmem)

theorem finish_snd_ne_nil (e : GoError) (r : Writer × Option GoError) :
    (finish (some e) r).2 ≠ Outcome.nil := by
  obtain ⟨w, _ | e2⟩ := r <;> simp [finish]

/-! ## Lemmas on writing rows -/

theorem writeRows_append (le : GoString) :
    ∀ (rows1 rows2 : List (List GoString)) (output : Writer),
      writeRows le output (rows1 ++ rows2) =
        match writeRows le output rows1 with
        | (w, some e) => (w, some e)
        | (w, none) => writeRows le w rows2 := by
  intro rows1
  induction rows1 with
  | nil => intro rows2 output; simp [writeRows]
  | cons row rows1 ih =>
    intro rows2 output
    simp only [List.cons_append, writeRows]
    rcases writeCSVRow output row le with ⟨w, _ | e⟩
    · exact ih rows2 w
    · rfl

theorem writeCSVRow_none (output w : Writer) (row : List GoString) (le : GoString)
    (h : writeCSVRow output row le = (w, none)) :
    w.written = output.written ++ csvWrite (decide (le = [CR, LF])) row ∧ w.err = output.err := by
  unfold writeCSVRow Writer.Write at h
  cases hr : output.room with
  | none =>
    simp only [hr, Prod.mk.injEq, and_true] at h
    rw [← h]
    exact ⟨rfl, rfl⟩
  | some k =>
    simp only [hr] at h
    split at h
    · simp only [Prod.mk.injEq, and_true] at h
      rw [← h]
      exact ⟨rfl, rfl⟩
    · simp at h

theorem writeCSVRow_some (output w : Writer) (row : List GoString) (le : GoString)
    (e : GoError) (h : writeCSVRow output row le = (w, some e)) :
    e = output.err ∧ w.err = output.err ∧
    ∃ part rest, w.written = output.written ++ part ∧
      part ++ rest = csvWrite (decide (le = [CR, LF])) row ∧ rest ≠ [] := by
  unfold writeCSVRow Writer.Write at h
  cases hr : output.room with
  | none => simp [hr] at h
  | some k =>
    simp only [hr] at h
    split at h
    · simp at h
    · rename_i hk
      simp only [Prod.mk.injEq, Option.some.injEq] at h
      obtain ⟨hw, he⟩ := h
      rw [← hw]
      refine ⟨he.symm, rfl, _, _, rfl, List.take_append_drop k _, ?_⟩
      intro hnil
      have := List.drop_eq_nil_iff.1 hnil
      omega

theorem writeRows_none (le : GoString) :
    ∀ (rows : List (List GoString)) (output w : Writer),
      writeRows le output rows = (w, none) →
      w.written = output.written ++ (rows.map (csvWrite (decide (le = [CR, LF])))).flatten ∧
      w.err = output.err := by
  intro rows
  induction rows with
  | nil =>
    intro output w h
    simp only [writeRows, Prod.mk.injEq, and_true] at h
    rw [h]
    simp
  | cons row rows ih =>
    intro output w h
    simp only [writeRows] at h
    cases hrow : writeCSVRow output row le with
    | mk w1 r =>
      rw [hrow] at h
      cases r with
      | some e => simp at h
      | none =>
        simp only at h
        obtain ⟨h1, h2⟩ := writeCSVRow_none output w1 row le hrow
        obtain ⟨h3, h4⟩ := ih w1 w h
        rw [h3, h1, h4, h2]
        simp

theorem writeRows_some (le : GoString) :
    ∀ (rows : List (List GoString)) (output w : Writer) (e : GoError),
      writeRows le output rows = (w, some e) →
      e = output.err ∧
      ∃ part rest, w.written = output.written ++ part ∧
        part ++ rest = (rows.map (csvWrite (decide (le = [CR, LF])))).flatten ∧ rest ≠ [] := by
  intro rows
  induction rows with
  | nil => intro output w e h; simp [writeRows] at h
  | cons row rows ih =>
    intro output w e h
    simp only [writeRows] at h
    cases hrow : writeCSVRow output row le with
    | mk w1 r =>
      rw [hrow] at h
      cases r with
      | some e1 =>
        simp only [Prod.mk.injEq, Option.some.injEq] at h
        obtain ⟨hw, he⟩ := h
        subst hw he
        obtain ⟨h1, _, part, rest, h2, h3, h4⟩ := writeCSVRow_some output w1 row le e1 hrow
        refine ⟨h1, part, rest ++ (rows.map (csvWrite (decide (le = [CR, LF])))).flatten,
          h2, ?_, ?_⟩
        · rw [List.map_cons, List.flatten_cons, ← h3, List.append_assoc]
        · simp [h4]
      | none =>
        simp only at h
        obtain ⟨h1, h2⟩ := writeCSVRow_none output w1 row le hrow
        obtain ⟨h3, part, rest, h4, h5, h6⟩ := ih w1 w e h
        refine ⟨h3.trans h2, csvWrite (decide (le = [CR, LF])) row ++ part, rest, ?_, ?_, h6⟩
        · rw [h4, h1, List.append_assoc]
        · rw [List.map_cons, List.flatten_cons, List.append_assoc, h5]

theorem dataRows_append (re : Regexp) (g : List GoString) (xs ys : List GoString) :
    dataRows re g (xs ++ ys) = dataRows re g xs ++ dataRows re g ys := by
  simp [dataRows, List.filterMap_append]

theorem dataRows_cons_accepted (re : Regexp) (g : List GoString) (line : GoString)
    (values : List GoString) (rest : List GoString)
    (h : processLine line re g = some (values, true)) :
    dataRows re g (line :: rest) = values :: dataRows re g rest := by
  simp [dataRows, acceptedRow, h]

theorem emittedRows_append (g : List GoString) (rows1 rows2 : List (List GoString)) :
    emittedRows g true (rows1 ++ rows2) =
      emittedRows g true rows1 ++ emittedRows g (decide (rows1 = [])) rows2 := by
  cases rows1 with
  | nil => simp [emittedRows]
  | cons r rows1 =>
    cases rows2 with
    | nil => simp [emittedRows]
    | cons r2 rows2 => simp [emittedRows]

theorem emittedRows_false (g : List GoString) (rows : List (List GoString)) :
    emittedRows g false rows = rows := by
  cases rows <;> simp [emittedRows]

theorem emittedRows_true (g : List GoString) (rows : List (List GoString)) :
    emittedRows g true rows = (if rows = [] then [] else [g]) ++ rows := by
  cases rows <;> simp [emittedRows]

theorem finish_eq_nil (r : Writer × Option GoError) (w : Writer)
    (h : finish none r = (w, Outcome.nil)) : r = (w, none) := by
  obtain ⟨w1, _ | e⟩ := r
  · simp only [finish, Prod.mk.injEq, and_true] at h
    rw [h]
  · simp [finish] at h

/-! ## Lemmas on indexing and on the cells of a row -/

theorem IndexByte_lt_length (c : Nat) (s : List Nat) (idx : Nat)
    (h : IndexByte s c = some idx) : idx < s.length := by
  obtain ⟨pre, post, hs, _, hlen⟩ := IndexByte_eq_some c s idx h
  rw [hs, ← hlen]
  simp

theorem writeField_eq_nil (crlf : Bool) (f : GoString) (h : writeField crlf f = []) : f = [] := by
  unfold writeField at h
  split at h
  · simp at h
  · exact h

theorem csvWrite_ne_terminator (crlf : Bool) (row : List GoString)
    (h : ∃ cell ∈ row, cell ≠ []) :
    csvWrite crlf row ≠ (if crlf then [CR, LF] else [LF]) := by
  intro heq
  unfold csvWrite at heq
  have hnil : writeFields crlf 0 row = [] := List.append_left_eq_self.1 heq
  obtain ⟨cell, hcell, hne⟩ := h
  cases row with
  | nil => cases hcell
  | cons f rest =>
    rw [writeFields_zero_cons, List.append_eq_nil] at hnil
    obtain ⟨hf, hrest⟩ := hnil
    have hf2 := writeField_eq_nil crlf f hf
    cases rest with
    | nil =>
      rw [List.mem_singleton] at hcell
      exact hne (hcell.trans hf2)
    | cons g rest => simp at hrest

theorem processLine_true_cells (re : Regexp) (hre : re.WellFormed) (line : GoString)
    (g values : List GoString) (h : processLine line re g = some (values, true)) :
    (∃ cell ∈ values, cell ≠ []) ∧
    values.length = ((re.SubexpNames.drop 1).filter (fun name => name ≠ [])).length := by
  cases hf : re.FindStringSubmatch line with
  | none => rw [processLine_of_nomatch re line g hf] at h; simp at h
  | some subs =>
    have hlen := hre.2 line subs hf
    rw [processLine_of_match re line g subs hf (le_of_eq hlen)] at h
    split at h
    · simp at h
    · rename_i hall
      simp only [Option.some.injEq, Prod.mk.injEq, and_true] at h
      constructor
      · simp only [List.all_eq_true, decide_eq_true_eq, not_forall] at hall
        obtain ⟨p, hp, hp2⟩ := hall
        exact ⟨p.2, h ▸ List.mem_map_of_mem _ hp, hp2⟩
      · rw [← h, ← map_fst_namedSlots re.SubexpNames subs hlen]
        simp

theorem processLine_of_acceptedRow (re : Regexp) (g : List GoString) (line : GoString)
    (row : List GoString) (h : acceptedRow re g line = some row) :
    processLine line re g = some (row, true) := by
  unfold acceptedRow at h
  split at h
  · rename_i values hpl
    simp only [Option.some.injEq] at h
    rw [hpl, h]
  · cases h

theorem peekForLineEnding_first_line (input : Reader) (line rest : List Nat)
    (hdata : input.data = line ++ LF :: rest) (hlf : LF ∉ line)
    (hlen : line.length < defaultBufSize) (hcr : line.getLast? ≠ some CR) :
    peekForLineEnding input logLineSizeMax = Except.ok (input, [LF]) := by
  obtain ⟨le, hpeek, _⟩ := peekForLineEnding_ok input
  have hspec := peekForLineEnding_spec input logLineSizeMax input le hpeek
  have hsample : (input.Peek defaultBufSize logLineSizeMax).1 =
      line ++ LF :: (rest.take (defaultBufSize - line.length - 1)) := by
    have h1 : (input.Peek defaultBufSize logLineSizeMax).1 = input.data.take defaultBufSize := by
      simp [Reader.Peek, logLineSizeMax, defaultBufSize]
    rw [h1, hdata, List.take_append_eq_append_take, List.take_of_length_le (by omega)]
    obtain ⟨m, hm⟩ : ∃ m, defaultBufSize - line.length = m + 1 :=
      ⟨defaultBufSize - line.length - 1, by omega⟩
    rw [hm, List.take_succ_cons]
    simp
  have hne : le ≠ [CR, LF] := by
    intro e
    obtain ⟨pre, post, hs, hpre⟩ := hspec.2.1.1 e
    rw [hsample] at hs
    have hidx1 := IndexByte_append LF line (LF :: rest.take (defaultBufSize - line.length - 1)) hlf
    have hpre2 : LF ∉ pre ++ [CR] := by
      intro hmem
      rcases List.mem_append.1 hmem with h | h
      · exact hpre h
      · simp [CR, LF] at h
    have hidx2 := IndexByte_append LF (pre ++ [CR]) (LF :: post) hpre2
    have hs2 : line ++ LF :: rest.take (defaultBufSize - line.length - 1) =
        (pre ++ [CR]) ++ LF :: post := by
      rw [hs]
      simp
    rw [hs2, hidx2] at hidx1
    simp only [IndexByte, if_true, Option.map_some', Nat.zero_add, Option.some.injEq] at hidx1
    have hline : line = pre ++ [CR] := (List.append_inj hs2 hidx1.symm).1
    apply hcr
    rw [hline]
    simp
  rw [hpeek, hspec.2.2 hne]

theorem byteAt_pred_IndexByteInt (sample : List Nat) (idx : Nat)
    (h : IndexByte sample LF = some idx) (hpos : 0 < idx) :
    byteAt sample (IndexByteInt sample LF - 1) = sample[idx - 1]? ∧
    ∃ b, sample[idx - 1]? = some b := by
  have hlt := IndexByte_lt_length LF sample idx h
  have hint : IndexByteInt sample LF = (idx : Int) := by simp [IndexByteInt, h]
  have hcast : ((idx : Int) - 1).toNat = idx - 1 := by omega
  refine ⟨?_, ⟨_, List.getElem?_eq_getElem (by omega)⟩⟩
  rw [hint, byteAt, if_pos (by omega), hcast]

theorem byteAt_neg_one (sample : List Nat) : byteAt sample (0 - 1) = none := by
  simp [byteAt]

theorem peekForLineEndingChecked_eq (input : Reader) (sizeMaxPeek : Nat) :
    peekForLineEndingChecked input sizeMaxPeek = some (peekForLineEnding input sizeMaxPeek) := by
  unfold peekForLineEndingChecked peekForLineEnding
  simp only
  generalize (input.Peek defaultBufSize sizeMaxPeek).1 = sample
  split
  · rfl
  · cases hi : IndexByte sample LF with
    | none =>
      have hint : IndexByteInt sample LF = -1 := by simp [IndexByteInt, hi]
      simp [hint]
    | some idx =>
      have hint : IndexByteInt sample LF = (idx : Int) := by simp [IndexByteInt, hi]
      by_cases hpos : 0 < idx
      · obtain ⟨h1, b, h2⟩ := byteAt_pred_IndexByteInt sample idx hi hpos
        rw [h1, h2, hint]
        have hp : (idx : Int) > 0 := by omega
        have hn : (idx : Int) ≥ 0 := by omega
        simp only [hn, hp, if_true, gt_iff_lt, hpos, true_and, Option.some.injEq]
        by_cases hb : b = CR <;> simp [hb, h2]
      · have h0 : idx = 0 := by omega
        subst h0
        simp [hint]

theorem Peek_leading_LF (input : Reader) (rest : List Nat) (hdata : input.data = LF :: rest)
    (n : Nat) :
    (input.Peek defaultBufSize n).1 = [] ∨
      ∃ tail, (input.Peek defaultBufSize n).1 = LF :: tail := by
  unfold Reader.Peek
  rw [hdata]
  simp only [defaultBufSize]
  split
  · exact Or.inr ⟨_, rfl⟩
  · split
    · exact Or.inr ⟨_, rfl⟩
    · cases n with
      | zero => exact Or.inl rfl
      | succ m => exact Or.inr ⟨_, rfl⟩

theorem peekForLineEnding_leading_LF (input : Reader) (rest : List Nat)
    (hdata : input.data = LF :: rest) (n : Nat) (r : Reader) (le : GoString)
    (h : peekForLineEnding input n = Except.ok (r, le)) : le = [LF] := by
  obtain ⟨_, h1, h2⟩ := peekForLineEnding_spec input n r le h
  apply h2
  intro hcr
  obtain ⟨pre, post, hs, hpre⟩ := h1.1 hcr
  rcases Peek_leading_LF input rest hdata n with ht | ⟨tail, ht⟩
  · rw [ht] at hs
    simp at hs
  · rw [ht] at hs
    cases pre with
    | nil => simp [CR, LF] at hs
    | cons b pre =>
      simp only [List.cons_append, List.cons.injEq] at hs
      exact hpre (hs.1 ▸ List.mem_cons_self _ _)

theorem IndexByteInt_leading_LF (tail : List Nat) : IndexByteInt (LF :: tail) LF = 0 := by
  simp [IndexByteInt, IndexByte]

/-! ## The claims -/

/-- C1: with a writer that never fails, `processInput` writes nothing when no line
yields a data row; otherwise it writes the header row once, as the very first row,
then the first data row, then the remaining data rows and nothing else. -/
theorem C1_header_once_before_first_data_row (input : Reader) (re : Regexp)
    (groupNames : List GoString) (output : Writer)
    (hre : re.WellFormed) (hw : output.room = none) :
    ∃ le, peekForLineEnding input logLineSizeMax = Except.ok (input, le) ∧
      (dataRows re groupNames (openInput input).lines = [] →
        (processInput input re groupNames output).1.written = output.written) ∧
      (∀ first rest, dataRows re groupNames (openInput input).lines = first :: rest →
        (processInput input re groupNames output).1.written =
          output.written ++ csvWrite (decide (le = [CR, LF])) groupNames ++
            csvWrite (decide (le = [CR, LF])) first ++
            (rest.map (csvWrite (decide (le = [CR, LF])))).flatten) := by
  obtain ⟨le, hpeek, _, h⟩ := processInput_written input re groupNames output hre hw
  refine ⟨le, hpeek, ?_, ?_⟩
  · intro hrows
    rw [h, hrows]
    simp [emittedRows]
  · intro first rest hrows
    rw [h, hrows]
    simp [emittedRows, List.append_assoc]

/-- Witness of C1 on the two-line example of the specification. -/
theorem C1_header_once_before_first_data_row_witness :
    syslogRe.WellFormed ∧ stdout.room = none ∧
    ∃ le, peekForLineEnding syslogInput logLineSizeMax = Except.ok (syslogInput, le) ∧
      (dataRows syslogRe [ascii "ts", ascii "host"] (openInput syslogInput).lines = [] →
        (processInput syslogInput syslogRe [ascii "ts", ascii "host"] stdout).1.written =
          stdout.written) ∧
      (∀ first rest,
        dataRows syslogRe [ascii "ts", ascii "host"] (openInput syslogInput).lines =
          first :: rest →
        (processInput syslogInput syslogRe [ascii "ts", ascii "host"] stdout).1.written =
          stdout.written ++ csvWrite (decide (le = [CR, LF])) [ascii "ts", ascii "host"] ++
            csvWrite (decide (le = [CR, LF])) first ++
            (rest.map (csvWrite (decide (le = [CR, LF])))).flatten) :=
  ⟨syslogRe_wellFormed, rfl,
    C1_header_once_before_first_data_row syslogInput syslogRe [ascii "ts", ascii "host"] stdout
      syslogRe_wellFormed rfl⟩

/-- C2: with a writer that never fails, the rows `processInput` writes after the
header are the value lists `processLine` returns for the lines it accepts, one row per
accepted line, in input order; the number of data rows is the number of accepted
lines. -/
theorem C2_data_rows_are_accepted_lines (input : Reader) (re : Regexp)
    (groupNames : List GoString) (output : Writer)
    (hre : re.WellFormed) (hw : output.room = none) :
    ∃ le header, peekForLineEnding input logLineSizeMax = Except.ok (input, le) ∧
      (header = [] ∨ header = csvWrite (decide (le = [CR, LF])) groupNames) ∧
      (processInput input re groupNames output).1.written =
        output.written ++ header ++
          ((dataRows re groupNames (openInput input).lines).map
            (csvWrite (decide (le = [CR, LF])))).flatten ∧
      (dataRows re groupNames (openInput input).lines).length =
        (openInput input).lines.countP
          (fun line => (processLine line re groupNames).any (fun r => r.2)) := by
  obtain ⟨le, hpeek, _, h⟩ := processInput_written input re groupNames output hre hw
  refine ⟨le, if dataRows re groupNames (openInput input).lines = [] then []
    else csvWrite (decide (le = [CR, LF])) groupNames, hpeek, ?_, ?_, ?_⟩
  · split <;> simp
  · rw [h]
    cases hrows : dataRows re groupNames (openInput input).lines with
    | nil => simp [emittedRows]
    | cons first rest => simp [emittedRows, List.append_assoc]
  · simp only [dataRows]
    induction (openInput input).lines with
    | nil => simp
    | cons line rest ih =>
      simp only [List.filterMap_cons, List.countP_cons]
      rcases hpl : processLine line re groupNames with _ | ⟨values, ok⟩
      · simp [acceptedRow, hpl, ih]
      · cases ok <;> simp [acceptedRow, hpl, ih]

/-- Witness of C2: the two-line example of the specification, whose output is the
header and the two data rows, each ended by a line feed. -/
theorem C2_data_rows_are_accepted_lines_witness :
    syslogRe.WellFormed ∧ stdout.room = none ∧
    (∃ le header, peekForLineEnding syslogInput logLineSizeMax = Except.ok (syslogInput, le) ∧
      (header = [] ∨ header = csvWrite (decide (le = [CR, LF])) [ascii "ts", ascii "host"]) ∧
      (processInput syslogInput syslogRe [ascii "ts", ascii "host"] stdout).1.written =
        stdout.written ++ header ++
          ((dataRows syslogRe [ascii "ts", ascii "host"] (openInput syslogInput).lines).map
            (csvWrite (decide (le = [CR, LF])))).flatten ∧
      (dataRows syslogRe [ascii "ts", ascii "host"] (openInput syslogInput).lines).length =
        (openInput syslogInput).lines.countP
          (fun line =>
            (processLine line syslogRe [ascii "ts", ascii "host"]).any (fun r => r.2))) ∧
    (processInput syslogInput syslogRe [ascii "ts", ascii "host"] stdout).1.written =
      ascii "ts,host\n2024-01-01T00:00:00+00:00,host1\n2024-01-01T00:00:01+00:00,host2\n" ∧
    (processInput syslogInput syslogRe [ascii "ts", ascii "host"] stdout).2 = Outcome.nil :=
  ⟨syslogRe_wellFormed, rfl,
    C2_data_rows_are_accepted_lines syslogInput syslogRe [ascii "ts", ascii "host"] stdout
      syslogRe_wellFormed rfl, by decide, by decide⟩

/-- C3: row-suppression rule. `processLine` always returns; it returns `(nil, false)`
exactly when the pattern does not match the line or every named group (a slot
`idx ≥ 1` with a non-empty name) captured the empty string, whatever the anonymous
groups captured; otherwise it returns its values with `true`. -/
theorem C3_row_suppression_rule (re : Regexp) (hre : re.WellFormed) (line : GoString)
    (groupNames : List GoString) :
    (processLine line re groupNames = some ([], false) ↔
      (re.FindStringSubmatch line = none ∨
        ∃ submatches, re.FindStringSubmatch line = some submatches ∧
          ∀ idx, 1 ≤ idx → idx < submatches.length →
            re.SubexpNames[idx]? ≠ some [] → submatches[idx]? = some [])) ∧
    (processLine line re groupNames ≠ some ([], false) →
      ∃ values, processLine line re groupNames = some (values, true)) := by
  cases hf : re.FindStringSubmatch line with
  | none => simp [processLine_of_nomatch re line groupNames hf]
  | some subs =>
    have hlen := hre.2 line subs hf
    rw [processLine_of_match re line groupNames subs hf (le_of_eq hlen)]
    have hiff := all_namedSlots_iff re.SubexpNames subs hlen
    by_cases hall : (namedSlots re.SubexpNames subs).all (fun p => p.2 = []) = true
    · simp only [hall, if_true, true_iff, ne_eq, not_true_eq_false, false_implies, and_true]
      exact Or.inr ⟨subs, rfl, hiff.1 hall⟩
    · simp only [hall, if_false]
      refine ⟨?_, fun _ => ⟨_, rfl⟩⟩
      constructor
      · intro h
        simp at h
      · intro h
        rcases h with h | ⟨subs2, h2, h3⟩
        · cases h
        · cases h2
          exact absurd (hiff.2 h3) hall

/-- Witness of C3: `xx` matches `^(x+)(?P<a>y*)$` with the anonymous group capturing
`xx` and the named group empty, and yields no row; `xxy` yields the row `y`. -/
theorem C3_row_suppression_rule_witness :
    anonRe.WellFormed ∧
    ((processLine (ascii "xx") anonRe [ascii "a"] = some ([], false) ↔
      (anonRe.FindStringSubmatch (ascii "xx") = none ∨
        ∃ submatches, anonRe.FindStringSubmatch (ascii "xx") = some submatches ∧
          ∀ idx, 1 ≤ idx → idx < submatches.length →
            anonRe.SubexpNames[idx]? ≠ some [] → submatches[idx]? = some [])) ∧
    (processLine (ascii "xx") anonRe [ascii "a"] ≠ some ([], false) →
      ∃ values, processLine (ascii "xx") anonRe [ascii "a"] = some (values, true))) ∧
    anonRe.FindStringSubmatch (ascii "xx") = some [ascii "xx", ascii "xx", []] ∧
    processLine (ascii "xx") anonRe [ascii "a"] = some ([], false) ∧
    processLine (ascii "xxy") anonRe [ascii "a"] = some ([ascii "y"], true) :=
  ⟨anonRe_wellFormed, C3_row_suppression_rule anonRe anonRe_wellFormed (ascii "xx") [ascii "a"],
    by decide, by decide, by decide⟩

/-- C4, as stated, fails: inserting the non-matching line `zzz`, ended by a bare line
feed, in front of an input whose only line ends with carriage return and line feed
changes the detected line ending, and with it the bytes of every row written. -/
theorem C4_counterexample :
    syslogRe.FindStringSubmatch (ascii "zzz") = none ∧
    (openInput lfThenCrlfInput).lines = ascii "zzz" :: (openInput crlfInput).lines ∧
    (processInput crlfInput syslogRe [ascii "ts", ascii "host"] stdout).1.written =
      ascii "ts,host\r\nt,h\r\n" ∧
    (processInput lfThenCrlfInput syslogRe [ascii "ts", ascii "host"] stdout).1.written =
      ascii "ts,host\nt,h\n" ∧
    (processInput lfThenCrlfInput syslogRe [ascii "ts", ascii "host"] stdout).1.written ≠
      (processInput crlfInput syslogRe [ascii "ts", ascii "host"] stdout).1.written := by
  decide

/-- C4, amended: when two inputs have the same detected line-ending style and the
lines of the second are the lines of the first with one non-matching line inserted at
any position, `processInput` leaves the output writer in the same state on both, for
every engine, every list of group names and every writer. -/
theorem C4_nonmatching_line_same_style (input1 input2 : Reader) (re : Regexp)
    (groupNames : List GoString) (output : Writer) (le : GoString)
    (xs ys : List GoString) (line : GoString)
    (hle1 : peekForLineEnding input1 logLineSizeMax = Except.ok (input1, le))
    (hle2 : peekForLineEnding input2 logLineSizeMax = Except.ok (input2, le))
    (h1 : (openInput input1).lines = xs ++ ys)
    (h2 : (openInput input2).lines = xs ++ line :: ys)
    (hno : re.FindStringSubmatch line = none) :
    (processInput input1 re groupNames output).1 =
      (processInput input2 re groupNames output).1 := by
  simp only [processInput, hle1, hle2, h1, h2]
  exact processInputLoop_insert_nomatch re groupNames le _ _ line ys hno xs true output

/-- Witness of C4, amended: the example input with and without the line `noise`
between its two lines. -/
theorem C4_nonmatching_line_same_style_witness :
    (processInput syslogInput syslogRe [ascii "ts", ascii "host"] stdout).1 =
      (processInput syslogInputNoise syslogRe [ascii "ts", ascii "host"] stdout).1 :=
  C4_nonmatching_line_same_style syslogInput syslogInputNoise syslogRe
    [ascii "ts", ascii "host"] stdout [LF]
    [ascii "2024-01-01T00:00:00+00:00 host1 kernel: msg A"]
    [ascii "2024-01-01T00:00:01+00:00 host2 kernel: msg B"] (ascii "noise")
    rfl rfl (by decide) (by decide) (by decide)

/-- C5: for an engine meeting the regexp contract, `extractGroupNames` returns the
non-empty entries of the name list after the whole-match slot, in the same order and
with duplicates kept; whenever `processInput` writes a row, the first row it writes is
the record whose cells are exactly those names, in that order. -/
theorem C5_header_cells_are_group_names (re : Regexp) (hre : re.WellFormed) :
    ∃ names, extractGroupNames re = some names ∧
      names = (re.SubexpNames.drop 1).filter (fun name => name ≠ []) ∧
      names.Sublist (re.SubexpNames.drop 1) ∧
      (∀ name ∈ names, name ≠ []) ∧
      (∀ name, name ≠ [] → names.count name = (re.SubexpNames.drop 1).count name) ∧
      names.length = (re.SubexpNames.drop 1).countP (fun name => name ≠ []) ∧
      ∀ (input : Reader) (output : Writer), output.room = none →
        dataRows re names (openInput input).lines ≠ [] →
        ∃ le rest, peekForLineEnding input logLineSizeMax = Except.ok (input, le) ∧
          (processInput input re names output).1.written =
            output.written ++ csvWrite (decide (le = [CR, LF])) names ++ rest := by
  refine ⟨_, extractGroupNames_of_wellFormed re hre, rfl, List.filter_sublist _, ?_, ?_, ?_, ?_⟩
  · intro name hname
    simpa using (List.mem_filter.1 hname).2
  · intro name hname
    rw [List.count_filter]
    simpa using hname
  · rw [List.countP_eq_length_filter]
  · intro input output hw hrows
    obtain ⟨le, hpeek, _, h⟩ := processInput_written input re
      ((re.SubexpNames.drop 1).filter (fun name => name ≠ [])) output hre hw
    cases hr : dataRows re ((re.SubexpNames.drop 1).filter (fun name => name ≠ []))
        (openInput input).lines with
    | nil => exact absurd hr hrows
    | cons first rest =>
      refine ⟨le, csvWrite (decide (le = [CR, LF])) first ++
        (rest.map (csvWrite (decide (le = [CR, LF])))).flatten, hpeek, ?_⟩
      rw [h, hr]
      simp [emittedRows]

/-- Witness of C5: the names of `^(?P<ts>\S+)\s+(?P<host>\S+)\s` are `ts`, `host`. -/
theorem C5_header_cells_are_group_names_witness :
    syslogRe.WellFormed ∧ extractGroupNames syslogRe = some [ascii "ts", ascii "host"] ∧
    ∃ names, extractGroupNames syslogRe = some names ∧
      names = (syslogRe.SubexpNames.drop 1).filter (fun name => name ≠ []) ∧
      names.Sublist (syslogRe.SubexpNames.drop 1) ∧
      (∀ name ∈ names, name ≠ []) ∧
      (∀ name, name ≠ [] → names.count name = (syslogRe.SubexpNames.drop 1).count name) ∧
      names.length = (syslogRe.SubexpNames.drop 1).countP (fun name => name ≠ []) ∧
      ∀ (input : Reader) (output : Writer), output.room = none →
        dataRows syslogRe names (openInput input).lines ≠ [] →
        ∃ le rest, peekForLineEnding input logLineSizeMax = Except.ok (input, le) ∧
          (processInput input syslogRe names output).1.written =
            output.written ++ csvWrite (decide (le = [CR, LF])) names ++ rest :=
  ⟨syslogRe_wellFormed, by decide, C5_header_cells_are_group_names syslogRe syslogRe_wellFormed⟩

/-- C6: for an engine meeting the regexp contract, the values of an accepted line are
as many as the names `extractGroupNames` returns, and pairing the names with the values
gives exactly the named slots of the match with their captures, in slot order: the
anonymous slots are skipped without shifting the alignment. -/
theorem C6_values_aligned (re : Regexp) (hre : re.WellFormed) (line : GoString)
    (groupNames values : List GoString)
    (h : processLine line re groupNames = some (values, true)) :
    ∃ submatches names, re.FindStringSubmatch line = some submatches ∧
      extractGroupNames re = some names ∧
      values.length = names.length ∧
      names.zip values = namedSlots re.SubexpNames submatches := by
  cases hf : re.FindStringSubmatch line with
  | none => rw [processLine_of_nomatch re line groupNames hf] at h; simp at h
  | some subs =>
    have hlen := hre.2 line subs hf
    rw [processLine_of_match re line groupNames subs hf (le_of_eq hlen)] at h
    split at h
    · simp at h
    · simp only [Option.some.injEq, Prod.mk.injEq, and_true] at h
      refine ⟨subs, _, rfl, extractGroupNames_of_wellFormed re hre, ?_, ?_⟩
      · rw [← h, ← map_fst_namedSlots re.SubexpNames subs hlen]
        simp
      · rw [← h, ← map_fst_namedSlots re.SubexpNames subs hlen]
        exact List.zip_of_prod rfl rfl |>.symm

/-- Witness of C6: `xxy` against `^(x+)(?P<a>y*)$`; the anonymous group captures `xx`,
the only value is the capture `y` of the named group `a`. -/
theorem C6_values_aligned_witness :
    anonRe.WellFormed ∧
    processLine (ascii "xxy") anonRe [ascii "a"] = some ([ascii "y"], true) ∧
    anonRe.FindStringSubmatch (ascii "xxy") = some [ascii "xxy", ascii "xx", ascii "y"] ∧
    extractGroupNames anonRe = some [ascii "a"] ∧
    ∃ submatches names,
      anonRe.FindStringSubmatch (ascii "xxy") = some submatches ∧
      extractGroupNames anonRe = some names ∧
      [ascii "y"].length = names.length ∧
      names.zip [ascii "y"] = namedSlots anonRe.SubexpNames submatches :=
  ⟨anonRe_wellFormed, by decide, by decide, by decide,
    C6_values_aligned anonRe anonRe_wellFormed (ascii "xxy") [ascii "a"] [ascii "y"]
      (by decide)⟩

/-- C7, as stated, fails in the CRLF style: the cell `a\rb` is written as `"ab"` and
reads back as `ab`; the rows `a\nb` and `a\r\nb` are written as the same bytes, so no
parser returns the original cells of both. -/
theorem C7_counterexample :
    (writeCSVRow stdout [ascii "a\rb"] [CR, LF]).1.written = ascii "\"ab\"\r\n" ∧
    parseCSVRecord (writeCSVRow stdout [ascii "a\rb"] [CR, LF]).1.written = some [ascii "ab"] ∧
    (writeCSVRow stdout [ascii "a\nb"] [CR, LF]).1.written =
      (writeCSVRow stdout [ascii "a\r\nb"] [CR, LF]).1.written ∧
    ¬ ∃ parse : List Nat → Option (List GoString),
      ∀ values, values ≠ [] →
        parse (writeCSVRow stdout values [CR, LF]).1.written = some values := by
  refine ⟨by decide, by decide, by decide, ?_⟩
  rintro ⟨parse, h⟩
  have h1 := h [ascii "a\nb"] (by decide)
  have h2 := h [ascii "a\r\nb"] (by decide)
  rw [show (writeCSVRow stdout [ascii "a\nb"] [CR, LF]).1.written =
    (writeCSVRow stdout [ascii "a\r\nb"] [CR, LF]).1.written from by decide, h2] at h1
  revert h1
  decide

/-- C7, amended: for every row with at least one cell, reading back the bytes
`writeCSVRow` appends to a writer that never fails gives the cells with their line
breaks as `csv.Writer` writes them; that is the original cells in the LF style, whatever
bytes they contain, and in the CRLF style for cells without carriage return and line
feed. -/
theorem C7_round_trip_up_to_line_breaks (output : Writer) (values : List GoString)
    (lineEnding : GoString) (hw : output.room = none) (hne : values ≠ []) :
    parseCSVRecord ((writeCSVRow output values lineEnding).1.written.drop output.written.length) =
      some (values.map (crlfTranslate (decide (lineEnding = [CR, LF])))) ∧
    (lineEnding ≠ [CR, LF] →
      parseCSVRecord
        ((writeCSVRow output values lineEnding).1.written.drop output.written.length) =
        some values) ∧
    ((∀ cell ∈ values, ∀ c ∈ cell, c ≠ LF ∧ c ≠ CR) →
      parseCSVRecord
        ((writeCSVRow output values lineEnding).1.written.drop output.written.length) =
        some values) := by
  have hbytes : (writeCSVRow output values lineEnding).1.written.drop output.written.length =
      csvWrite (decide (lineEnding = [CR, LF])) values := by
    simp [writeCSVRow, Writer.Write, hw]
  rw [hbytes, parseCSVRecord_csvWrite _ values hne]
  refine ⟨rfl, ?_, ?_⟩
  · intro hle
    have hid : crlfTranslate false = id := funext (fun f => by simp [crlfTranslate])
    simp [hle, hid]
  · intro hplain
    congr 1
    conv_rhs => rw [← List.map_id values]
    apply List.map_congr_left
    intro cell hcell
    exact crlfTranslate_of_plain _ cell (hplain cell hcell)

/-- Witness of C7, amended: a row with a comma, double quotes and a line break inside
its cells, in the LF style. -/
theorem C7_round_trip_up_to_line_breaks_witness :
    stdout.room = none ∧ [ascii "a,b", ascii "say \"hi\"", ascii "p\r\nq"] ≠ [] ∧
    (writeCSVRow stdout [ascii "a,b", ascii "say \"hi\"", ascii "p\r\nq"] [LF]).1.written =
      ascii "\"a,b\",\"say \"\"hi\"\"\",\"p\r\nq\"\n" ∧
    parseCSVRecord
      ((writeCSVRow stdout [ascii "a,b", ascii "say \"hi\"", ascii "p\r\nq"] [LF]).1.written.drop
        stdout.written.length) = some [ascii "a,b", ascii "say \"hi\"", ascii "p\r\nq"] :=
  ⟨rfl, by decide, by decide,
    (C7_round_trip_up_to_line_breaks stdout [ascii "a,b", ascii "say \"hi\"", ascii "p\r\nq"]
      [LF] rfl (by decide)).2.1 (by decide)⟩

/-- C8: `writeCSVRow` appends the serialised cells separated by single commas and the
line terminator; a cell holding a comma, a double quote, a carriage return or a line
feed is written between double quotes, each of its double quotes written twice, its
other bytes adding no double quote and its ordinary bytes copied. -/
theorem C8_row_serialization (output : Writer) (values : List GoString)
    (lineEnding : GoString) (hw : output.room = none) :
    (writeCSVRow output values lineEnding).1.written =
      output.written ++
        List.intercalate [csvSeparator]
          (values.map (writeField (decide (lineEnding = [CR, LF])))) ++
        (if lineEnding = [CR, LF] then [CR, LF] else [LF]) ∧
    ∀ cell ∈ values,
      (∃ c ∈ cell, c = csvSeparator ∨ c = DQUOTE ∨ c = CR ∨ c = LF) →
      ∃ enc : Nat → List Nat,
        enc DQUOTE = [DQUOTE, DQUOTE] ∧
        (∀ c, c ≠ DQUOTE → DQUOTE ∉ enc c) ∧
        (∀ c, c ≠ DQUOTE → c ≠ CR → c ≠ LF → enc c = [c]) ∧
        (lineEnding ≠ [CR, LF] → ∀ c, c ≠ DQUOTE → enc c = [c]) ∧
        writeField (decide (lineEnding = [CR, LF])) cell =
          [DQUOTE] ++ cell.flatMap enc ++ [DQUOTE] := by
  constructor
  · simp only [writeCSVRow, Writer.Write, hw, csvWrite, writeFields_eq_intercalate]
    by_cases hle : lineEnding = [CR, LF] <;> simp [hle]
  · intro cell _ hspecial
    have hfalse : lineEnding ≠ [CR, LF] → decide (lineEnding = [CR, LF]) = false := by
      intro hle
      simp [hle]
    generalize decide (lineEnding = [CR, LF]) = b at hfalse
    refine ⟨quotedByte b, by simp [quotedByte], ?_, ?_, ?_, ?_⟩
    · intro c hc
      unfold quotedByte
      by_cases h1 : c = CR
      · cases b <;> simp [hc, h1, CR, DQUOTE]
      · by_cases h2 : c = LF
        · cases b <;> simp [hc, h1, h2, CR, LF, DQUOTE]
        · simp only [hc, h1, h2, if_false, List.mem_singleton]
          exact fun h => hc h.symm
    · intro c h0 h1 h2
      simp [quotedByte, h0, h1, h2]
    · intro hle c h0
      rw [hfalse hle]
      unfold quotedByte
      by_cases h1 : c = CR
      · simp [h0, h1, CR, DQUOTE]
      · by_cases h2 : c = LF
        · simp [h0, h1, h2, CR, LF, DQUOTE]
        · simp [h0, h1, h2]
    · have hq : fieldNeedsQuotes cell = true := by
        obtain ⟨c, hc, hcs⟩ := hspecial
        unfold fieldNeedsQuotes
        have hne : cell ≠ [] := List.ne_nil_of_mem hc
        have hany : cell.any (fun c => c = LF ∨ c = CR ∨ c = DQUOTE ∨ c = csvSeparator) = true := by
          simp only [List.any_eq_true, decide_eq_true_eq]
          exact ⟨c, hc, by tauto⟩
        rw [if_neg hne]
        by_cases h : cell = [92, 46]
        · rw [if_pos h]
        · rw [if_neg h, if_pos hany]
      simp [writeField, hq, writeQuotedBody_eq_flatMap]

/-- Witness of C8: a row with a comma and double quotes inside its cells. -/
theorem C8_row_serialization_witness :
    stdout.room = none ∧
    (writeCSVRow stdout [ascii "a,b", ascii "say \"hi\"", ascii "plain"] [LF]).1.written =
      ascii "\"a,b\",\"say \"\"hi\"\"\",plain\n" ∧
    (writeCSVRow stdout [ascii "a,b", ascii "say \"hi\"", ascii "plain"] [LF]).1.written =
      stdout.written ++
        List.intercalate [csvSeparator]
          ([ascii "a,b", ascii "say \"hi\"", ascii "plain"].map
            (writeField (decide ([LF] = [CR, LF])))) ++
        (if [LF] = [CR, LF] then [CR, LF] else [LF]) :=
  ⟨rfl, by decide,
    (C8_row_serialization stdout [ascii "a,b", ascii "say \"hi\"", ascii "plain"] [LF] rfl).1⟩

/-- C9: `peekForLineEnding` returns `\r\n` exactly when the peeked sample holds a line
feed and the byte just before its first line feed is a carriage return, and `\n`
otherwise; `processInput` detects this style once and every row it writes, header and
data alike, is its cells followed by that sequence, the cells never ending with a
carriage return, however the input lines were ended. -/
theorem C9_line_ending_uniform (input : Reader) (re : Regexp) (groupNames : List GoString)
    (output : Writer) (hre : re.WellFormed) (hw : output.room = none) :
    (∀ n r le, peekForLineEnding input n = Except.ok (r, le) →
      (le = [CR, LF] ↔
        ∃ pre post, (input.Peek defaultBufSize n).1 = pre ++ CR :: LF :: post ∧ LF ∉ pre) ∧
      (le ≠ [CR, LF] → le = [LF])) ∧
    ∃ le, peekForLineEnding input logLineSizeMax = Except.ok (input, le) ∧
      (processInput input re groupNames output).1.written =
        output.written ++
          ((emittedRows groupNames true (dataRows re groupNames (openInput input).lines)).map
            (fun row => writeFields (decide (le = [CR, LF])) 0 row ++ le)).flatten ∧
      ∀ row, (writeFields (decide (le = [CR, LF])) 0 row).getLast? ≠ some CR := by
  refine ⟨fun n r le h => (peekForLineEnding_spec input n r le h).2, ?_⟩
  obtain ⟨le, hpeek, hle, h⟩ := processInput_written input re groupNames output hre hw
  refine ⟨le, hpeek, ?_, fun row => writeFields_getLast?_ne_CR _ row 0⟩
  rw [h]
  congr 2
  apply List.map_congr_left
  intro row _
  rcases hle with hle | hle <;> subst hle <;> simp [csvWrite, CR, LF]

/-- Witness of C9: an input whose first line ends with carriage return and line feed and
whose second line ends with a bare line feed; all three rows written end with carriage
return and line feed. -/
theorem C9_line_ending_uniform_witness :
    syslogRe.WellFormed ∧ stdout.room = none ∧
    peekForLineEnding mixedInput logLineSizeMax = Except.ok (mixedInput, [CR, LF]) ∧
    (processInput mixedInput syslogRe [ascii "ts", ascii "host"] stdout).1.written =
      ascii "ts,host\r\nt,h\r\nu,v\r\n" ∧
    ((∀ n r le, peekForLineEnding mixedInput n = Except.ok (r, le) →
      (le = [CR, LF] ↔
        ∃ pre post, (mixedInput.Peek defaultBufSize n).1 = pre ++ CR :: LF :: post ∧
          LF ∉ pre) ∧
      (le ≠ [CR, LF] → le = [LF])) ∧
    ∃ le, peekForLineEnding mixedInput logLineSizeMax = Except.ok (mixedInput, le) ∧
      (processInput mixedInput syslogRe [ascii "ts", ascii "host"] stdout).1.written =
        stdout.written ++
          ((emittedRows [ascii "ts", ascii "host"] true
              (dataRows syslogRe [ascii "ts", ascii "host"] (openInput mixedInput).lines)).map
            (fun row => writeFields (decide (le = [CR, LF])) 0 row ++ le)).flatten ∧
      ∀ row, (writeFields (decide (le = [CR, LF])) 0 row).getLast? ≠ some CR) :=
  ⟨syslogRe_wellFormed, rfl, rfl, by decide,
    C9_line_ending_uniform mixedInput syslogRe [ascii "ts", ascii "host"] stdout
      syslogRe_wellFormed rfl⟩

/-- C10, the code at the failing input: the first line feed of `longFirstLineInput` lies
at offset 4101, below 65536, and follows a carriage return, yet `peekForLineEnding`
with `sizeMaxPeek = logLineSizeMax` sees only the 4096 bytes of the reader's buffer,
finds no line feed there and answers `\n`; the rows are written with a bare line
feed. -/
theorem C10_look_ahead_is_one_buffer :
    (∃ pre post, longFirstLineInput.data = pre ++ CR :: LF :: post ∧ LF ∉ pre ∧
      pre.length + 1 < logLineSizeMax) ∧
    (longFirstLineInput.Peek defaultBufSize logLineSizeMax).1.length = 4096 ∧
    peekForLineEnding longFirstLineInput logLineSizeMax =
      Except.ok (longFirstLineInput, [LF]) ∧
    (processInput longFirstLineInput syslogRe [ascii "ts", ascii "host"] stdout).1.written =
      ascii "ts,host\nt,h\n" := by
  have hpeek : peekForLineEnding longFirstLineInput logLineSizeMax =
      Except.ok (longFirstLineInput, [LF]) := by
    apply peekForLineEnding_of_not_mem
    intro hmem
    rw [longFirstLineInput] at hmem
    rw [List.take_append_of_le_length (by rw [longFirstLine_length]; decide)] at hmem
    exact not_mem_longFirstLine (List.mem_of_mem_take hmem)
  refine ⟨⟨ascii "t h " ++ longRun, [], rfl, not_mem_longFirstLine, ?_⟩, ?_, hpeek, ?_⟩
  · rw [longFirstLine_length]
    decide
  · have h : (longFirstLineInput.Peek defaultBufSize logLineSizeMax).1 =
        longFirstLineInput.data.take defaultBufSize := by
      rw [Reader.Peek]
      rw [if_pos (by decide)]
    rw [h, List.length_take, longFirstLineInput, List.length_append, longFirstLine_length]
    decide
  · have hscan : scanLines bufferSizeMax longFirstLineInput.err longFirstLineInput.data [] =
        ([ascii "t h " ++ longRun], none) :=
      scanLines_last_line bufferSizeMax (ascii "t h " ++ longRun) not_mem_longFirstLine
        (by rw [longFirstLine_length]; decide)
    rw [processInput_of_peek _ _ _ _ _ hpeek, hscan]
    rfl

/-- C11, as stated, fails: a line of 65541 bytes, longer than `logLineSizeMax`, is
handed to the matcher whole, its row is written and `processInput` returns `nil`. -/
theorem C11_counterexample :
    (∃ line rest, overlongLineInput.data = line ++ LF :: rest ∧ LF ∉ line ∧
      logLineSizeMax < line.length) ∧
    (openInput overlongLineInput).lines = [ascii "t h " ++ overlongRun] ∧
    (processInput overlongLineInput syslogRe [ascii "ts", ascii "host"] stdout).1.written =
      ascii "ts,host\nt,h\n" ∧
    (processInput overlongLineInput syslogRe [ascii "ts", ascii "host"] stdout).2 =
      Outcome.nil := by
  refine ⟨⟨ascii "t h " ++ overlongRun, [], rfl, not_mem_overlongLine, ?_⟩, ?_, ?_, ?_⟩
  · rw [overlongLine_length]
    decide
  · rw [scanner_lines_eq, scanLines_overlongLineInput]
  · rw [processInput_of_peek _ _ _ _ _ peekForLineEnding_overlongLineInput,
      scanLines_overlongLineInput]
    rfl
  · rw [processInput_of_peek _ _ _ _ _ peekForLineEnding_overlongLineInput,
      scanLines_overlongLineInput]
    rfl

/-- C11, amended: the line limit is `bufferSizeMax`. When the input holds, after
complete lines shorter than that, a line of `bufferSizeMax` bytes or more,
`processInput` writes the rows of the lines before it and then returns a non-nil error,
`ErrTooLong` unless a write failed first; the long line and the lines after it are
handed to no matcher and yield no row, and when no earlier line yielded a row the
output is left as it was, without header. -/
theorem C11_line_limit_is_bufferSizeMax (input : Reader) (re : Regexp)
    (groupNames : List GoString) (output : Writer) (pre long rest : List Nat)
    (hre : re.WellFormed)
    (hdata : input.data = pre ++ long ++ rest)
    (hpre : (cutAtLineFeeds pre).2 = [])
    (hshort : ∀ q ∈ (cutAtLineFeeds pre).1, q.length < bufferSizeMax)
    (hlf : LF ∉ long) (hlen : bufferSizeMax ≤ long.length) :
    (openInput input).lines = (cutAtLineFeeds pre).1.map dropCR ∧
    (openInput input).Err = some GoError.ErrTooLong ∧
    ∃ le, peekForLineEnding input logLineSizeMax = Except.ok (input, le) ∧
      processInput input re groupNames output =
        finish (some GoError.ErrTooLong)
          (writeRows le output
            (emittedRows groupNames true
              (dataRows re groupNames ((cutAtLineFeeds pre).1.map dropCR)))) ∧
      (processInput input re groupNames output).2 ≠ Outcome.nil ∧
      (output.room = none →
        (processInput input re groupNames output).2 = Outcome.error GoError.ErrTooLong ∧
        (processInput input re groupNames output).1.written =
          output.written ++
            ((emittedRows groupNames true
                (dataRows re groupNames ((cutAtLineFeeds pre).1.map dropCR))).map
              (csvWrite (decide (le = [CR, LF])))).flatten) ∧
      (dataRows re groupNames ((cutAtLineFeeds pre).1.map dropCR) = [] →
        (processInput input re groupNames output).1 = output) := by
  have hscan : scanLines bufferSizeMax input.err input.data [] =
      ((cutAtLineFeeds pre).1.map dropCR, some GoError.ErrTooLong) := by
    rw [hdata]
    exact scanLines_long_line bufferSizeMax input.err pre long rest hpre hshort hlf hlen
  have hlines : (openInput input).lines = (cutAtLineFeeds pre).1.map dropCR := by
    rw [scanner_lines_eq, hscan]
  have herr : (openInput input).Err = some GoError.ErrTooLong := by
    rw [scanner_Err_eq, hscan]
  obtain ⟨le, hpeek, _, h⟩ := processInput_eq_writeRows input re groupNames output hre
  rw [hlines, herr] at h
  refine ⟨hlines, herr, le, hpeek, h, ?_, ?_, ?_⟩
  · rw [h]
    exact finish_snd_ne_nil _ _
  · intro hw
    rw [h, writeRows_of_room_none le _ output hw]
    simp [finish]
  · intro hrows
    rw [h, hrows]
    simp [emittedRows, writeRows, finish]

/-- Witness of C11, amended: the line `t h x`, then a line of `bufferSizeMax` bytes,
then the line `u v w`; the header and the row of the first line are written and the
call ends with `ErrTooLong`. -/
theorem C11_line_limit_is_bufferSizeMax_witness :
    syslogRe.WellFormed ∧
    (cutAtLineFeeds (ascii "t h x\n")).2 = [] ∧
    (∀ q ∈ (cutAtLineFeeds (ascii "t h x\n")).1, q.length < bufferSizeMax) ∧
    LF ∉ hugeRun ∧ bufferSizeMax ≤ hugeRun.length ∧
    (openInput hugeSecondLineInput).lines = [ascii "t h x"] ∧
    (processInput hugeSecondLineInput syslogRe [ascii "ts", ascii "host"] stdout).2 =
      Outcome.error GoError.ErrTooLong ∧
    (processInput hugeSecondLineInput syslogRe [ascii "ts", ascii "host"] stdout).1.written =
      ascii "ts,host\nt,h\n" := by
  obtain ⟨hlines, _, le, hpeek, _, _, hroom, _⟩ :=
    C11_line_limit_is_bufferSizeMax hugeSecondLineInput syslogRe [ascii "ts", ascii "host"]
      stdout (ascii "t h x\n") hugeRun (LF :: ascii "u v w\n") syslogRe_wellFormed rfl
      (by decide) (by decide) not_mem_hugeRun (le_of_eq hugeRun_length.symm)
  have hdata : hugeSecondLineInput.data =
      ascii "t h x" ++ LF :: (hugeRun ++ LF :: ascii "u v w\n") := by
    simp only [hugeSecondLineInput]
    rw [show ascii "t h x\n" = ascii "t h x" ++ [LF] from by decide, List.append_assoc,
      List.append_assoc, List.singleton_append]
  have hpeek2 := peekForLineEnding_first_line hugeSecondLineInput (ascii "t h x")
    (hugeRun ++ LF :: ascii "u v w\n") hdata (by decide) (by decide) (by decide)
  have hle : le = [LF] :=
    congrArg (fun r : Except GoError (Reader × GoString) =>
      match r with
      | Except.ok p => p.2
      | Except.error _ => []) (hpeek.symm.trans hpeek2)
  subst hle
  exact ⟨syslogRe_wellFormed, by decide, by decide, not_mem_hugeRun,
    le_of_eq hugeRun_length.symm, hlines.trans (by decide), (hroom rfl).1,
    (hroom rfl).2.trans (by decide)⟩

/-- C12: `run` classifies pattern errors in a fixed order. A pattern of white space
only ends with the required-flag error whatever the compiler would say; otherwise a
pattern the compiler rejects ends with an error that wraps `ErrInvalidRegexp` and
carries the compiler's message; otherwise a pattern without named group ends with
`ErrNoNamedCaptureGroups`. In the three cases standard output is left untouched and the
result does not depend on standard input; the three errors differ, in their texts and
under `errors.Is`. -/
theorem C12_pattern_errors_in_order (Compile : GoString → Except GoString Regexp)
    (pattern : GoString) (out : Writer) :
    (isBlank pattern = true →
      ∀ (Compile2 : GoString → Except GoString Regexp) (stdin2 : Reader),
        run Compile2 pattern stdin2 out =
          { stdout := out, usage := true,
            outcome := RunOutcome.error RunError.flagRequired }) ∧
    (isBlank pattern = false → ∀ err, Compile pattern = Except.error err →
      ∀ stdin2 : Reader,
        run Compile pattern stdin2 out =
          { stdout := out, usage := false,
            outcome := RunOutcome.error (RunError.wrapped Sentinel.ErrInvalidRegexp err) }) ∧
    (isBlank pattern = false → ∀ re, Compile pattern = Except.ok re →
      extractGroupNames re = some [] →
      ∀ stdin2 : Reader,
        run Compile pattern stdin2 out =
          { stdout := out, usage := false,
            outcome :=
              RunOutcome.error (RunError.sentinel Sentinel.ErrNoNamedCaptureGroups) }) ∧
    (∀ err : GoString,
      RunError.flagRequired.Is Sentinel.ErrInvalidRegexp = false ∧
      RunError.flagRequired.Is Sentinel.ErrNoNamedCaptureGroups = false ∧
      (RunError.wrapped Sentinel.ErrInvalidRegexp err).Is Sentinel.ErrInvalidRegexp = true ∧
      (RunError.wrapped Sentinel.ErrInvalidRegexp err).Is Sentinel.ErrNoNamedCaptureGroups =
        false ∧
      (RunError.sentinel Sentinel.ErrNoNamedCaptureGroups).Is Sentinel.ErrInvalidRegexp =
        false ∧
      (RunError.sentinel Sentinel.ErrNoNamedCaptureGroups).Is
        Sentinel.ErrNoNamedCaptureGroups = true ∧
      RunError.flagRequired.Error ≠ (RunError.wrapped Sentinel.ErrInvalidRegexp err).Error ∧
      RunError.flagRequired.Error ≠
        (RunError.sentinel Sentinel.ErrNoNamedCaptureGroups).Error ∧
      (RunError.wrapped Sentinel.ErrInvalidRegexp err).Error ≠
        (RunError.sentinel Sentinel.ErrNoNamedCaptureGroups).Error ∧
      (RunError.wrapped Sentinel.ErrInvalidRegexp err).Error =
        some (ascii "invalid regular expression syntax: " ++ err)) := by
  refine ⟨?_, ?_, ?_, ?_⟩
  · intro hb Compile2 stdin2
    simp [run, hb]
  · intro hb err hc stdin2
    simp [run, hb, hc]
  · intro hb re hc hn stdin2
    simp [run, hb, hc, hn]
  · intro err
    refine ⟨rfl, rfl, rfl, rfl, rfl, rfl, ?_, by decide, ?_, ?_⟩
    · intro h
      have h2 : RunError.flagRequired.Error.bind List.head? =
          (RunError.wrapped Sentinel.ErrInvalidRegexp err).Error.bind List.head? := by rw [h]
      have h3 : (RunError.wrapped Sentinel.ErrInvalidRegexp err).Error.bind List.head? =
          some 105 := rfl
      rw [h3] at h2
      revert h2
      decide
    · intro h
      have h2 : (RunError.wrapped Sentinel.ErrInvalidRegexp err).Error.bind List.head? =
          (RunError.sentinel Sentinel.ErrNoNamedCaptureGroups).Error.bind List.head? := by
        rw [h]
      have h3 : (RunError.wrapped Sentinel.ErrInvalidRegexp err).Error.bind List.head? =
          some 105 := rfl
      rw [h3] at h2
      revert h2
      decide
    · simp only [RunError.Error, Sentinel.Error]
      congr 1

/-- Witness of C12: a blank pattern, the pattern `(`, which the compiler rejects, and
the pattern `^(x+)$`, which has no named group, each on the example input. -/
theorem C12_pattern_errors_in_order_witness :
    isBlank (ascii " \t ") = true ∧
    run exampleCompile (ascii " \t ") syslogInput stdout =
      { stdout := stdout, usage := true,
        outcome := RunOutcome.error RunError.flagRequired } ∧
    isBlank (ascii "(") = false ∧
    run exampleCompile (ascii "(") syslogInput stdout =
      { stdout := stdout, usage := false,
        outcome := RunOutcome.error (RunError.wrapped Sentinel.ErrInvalidRegexp
          (ascii "error parsing regexp: missing closing ): `(`")) } ∧
    isBlank (ascii "^(x+)$") = false ∧
    run exampleCompile (ascii "^(x+)$") syslogInput stdout =
      { stdout := stdout, usage := false,
        outcome := RunOutcome.error (RunError.sentinel Sentinel.ErrNoNamedCaptureGroups) } ∧
    (run exampleCompile (ascii "^(?P<ts>\\S+)\\s+(?P<host>\\S+)\\s") syslogInput stdout).outcome =
      RunOutcome.nil :=
  ⟨by decide,
    (C12_pattern_errors_in_order exampleCompile (ascii " \t ") stdout).1
      (by decide) exampleCompile syslogInput,
    by decide,
    (C12_pattern_errors_in_order exampleCompile (ascii "(") stdout).2.1
      (by decide) _ rfl syslogInput,
    by decide,
    (C12_pattern_errors_in_order exampleCompile (ascii "^(x+)$") stdout).2.2.1
      (by decide) onlyXRe rfl (by decide) syslogInput,
    by decide⟩

/-- C13, as stated, fails when the first data row cannot be written after its header
was: the output then holds the header, while for the lines before the failure, of
which there is none, `processInput` writes nothing. -/
theorem C13_counterexample :
    processInput syslogInput syslogRe [ascii "ts", ascii "host"] headerOnlyWriter =
      ({ written := ascii "ts,host\n", room := some 0, err := GoError.ioFailure 28 },
        Outcome.error (GoError.ioFailure 28)) ∧
    processInput emptyInput syslogRe [ascii "ts", ascii "host"] headerOnlyWriter =
      (headerOnlyWriter, Outcome.nil) ∧
    headerOnlyWriter.written = [] := by
  decide

/-- C13, amended: when the rows of the lines `pre` have been written without error
and a write for the next accepted line fails, its header if none was written yet or
its data row, `processInput` returns that error at once, whatever lines follow; the
output keeps the bytes written for `pre`, followed by the header when the failing row
is the first data row, and by the part of the failing row the writer took. -/
theorem C13_write_failure_returns_at_once (input : Reader) (re : Regexp)
    (groupNames : List GoString) (output : Writer) (le : GoString)
    (pre post : List GoString) (line : GoString) (values : List GoString)
    (w1 w2 : Writer) (e : GoError)
    (hre : re.WellFormed)
    (hpeek : peekForLineEnding input logLineSizeMax = Except.ok (input, le))
    (hlines : (openInput input).lines = pre ++ line :: post)
    (hline : processLine line re groupNames = some (values, true))
    (hpre : processInputLoop re groupNames le none pre true output = (w1, Outcome.nil))
    (hfail : writeRows le w1
      (if dataRows re groupNames pre = [] then [groupNames, values] else [values]) =
        (w2, some e)) :
    processInput input re groupNames output = (w2, Outcome.error e) ∧
    e = output.err ∧
    w1.written = output.written ++
      ((emittedRows groupNames true (dataRows re groupNames pre)).map
        (csvWrite (decide (le = [CR, LF])))).flatten ∧
    ∃ part rest, w2.written = w1.written ++ part ∧
      part ++ rest =
        (if dataRows re groupNames pre = [] then
          csvWrite (decide (le = [CR, LF])) groupNames ++
            csvWrite (decide (le = [CR, LF])) values
         else csvWrite (decide (le = [CR, LF])) values) ∧
      rest ≠ [] := by
  have hnp : ∀ l ∈ pre, processLine l re groupNames ≠ none :=
    fun l _ => processLine_ne_none_of_wellFormed re hre l groupNames
  have hw1 : writeRows le output (emittedRows groupNames true (dataRows re groupNames pre)) =
      (w1, none) := by
    apply finish_eq_nil
    rw [← processInputLoop_eq_writeRows re groupNames le none pre true output hnp]
    exact hpre
  obtain ⟨hw1w, hw1e⟩ := writeRows_none le _ output w1 hw1
  obtain ⟨he, part, rest, h2, h3, h4⟩ := writeRows_some le _ w1 w2 e hfail
  obtain ⟨le2, hpeek2, _, h⟩ := processInput_eq_writeRows input re groupNames output hre
  have hle : le2 = le := by
    rw [hpeek] at hpeek2
    injection hpeek2 with h5
    injection h5 with _ h6
    exact h6.symm
  subst hle
  refine ⟨?_, he.trans hw1e, hw1w, part, rest, h2, ?_, h4⟩
  · rw [h, hlines, dataRows_append, dataRows_cons_accepted re groupNames line values post hline,
      emittedRows_append, writeRows_append, hw1]
    simp only []
    have hrows : emittedRows groupNames (decide (dataRows re groupNames pre = []))
        (values :: dataRows re groupNames post) =
        (if dataRows re groupNames pre = [] then [groupNames, values] else [values]) ++
          dataRows re groupNames post := by
      by_cases hd : dataRows re groupNames pre = [] <;> simp [hd, emittedRows]
    rw [hrows, writeRows_append, hfail]
    simp [finish]
  · rw [h3]
    by_cases hd : dataRows re groupNames pre = [] <;> simp [hd]

/-- Witness of C13, amended: the example of the specification with a writer that has
room for the header and the first row only; the write of the second row fails. -/
theorem C13_write_failure_returns_at_once_witness :
    syslogRe.WellFormed ∧
    processInput syslogInput syslogRe [ascii "ts", ascii "host"] oneRowWriter =
      ({ written := ascii "ts,host\n2024-01-01T00:00:00+00:00,host1\n", room := some 0,
         err := GoError.ioFailure 28 }, Outcome.error (GoError.ioFailure 28)) :=
  ⟨syslogRe_wellFormed,
    (C13_write_failure_returns_at_once syslogInput syslogRe [ascii "ts", ascii "host"]
      oneRowWriter [LF] [ascii "2024-01-01T00:00:00+00:00 host1 kernel: msg A"] []
      (ascii "2024-01-01T00:00:01+00:00 host2 kernel: msg B")
      [ascii "2024-01-01T00:00:01+00:00", ascii "host2"]
      { written := ascii "ts,host\n2024-01-01T00:00:00+00:00,host1\n", room := some 0,
        err := GoError.ioFailure 28 }
      { written := ascii "ts,host\n2024-01-01T00:00:00+00:00,host1\n", room := some 0,
        err := GoError.ioFailure 28 }
      (GoError.ioFailure 28) syslogRe_wellFormed rfl (by decide) (by decide) (by decide)
      (by decide)).1⟩

/-- C14: when no write fails, in particular with a writer that never fails,
`processInput` writes the rows of all the lines delivered, header first if any line was
accepted, and returns what the scanner reports: `nil` at the end of the stream, the
read error when reading failed. With every line shorter than `bufferSizeMax` the
scanner reports `nil` exactly when the stream ended with `io.EOF`, and the error of the
stream otherwise. -/
theorem C14_end_of_stream_and_read_error (input : Reader) (re : Regexp)
    (groupNames : List GoString) (output : Writer) (hre : re.WellFormed) :
    ∃ le, peekForLineEnding input logLineSizeMax = Except.ok (input, le) ∧
      (∀ w, writeRows le output
          (emittedRows groupNames true (dataRows re groupNames (openInput input).lines)) =
            (w, none) →
        (processInput input re groupNames output).1 = w ∧
        w.written = output.written ++
          ((emittedRows groupNames true (dataRows re groupNames (openInput input).lines)).map
            (csvWrite (decide (le = [CR, LF])))).flatten ∧
        ((openInput input).Err = none →
          (processInput input re groupNames output).2 = Outcome.nil) ∧
        (∀ e, (openInput input).Err = some e →
          (processInput input re groupNames output).2 = Outcome.error e)) ∧
      (output.room = none →
        ∃ w, writeRows le output
          (emittedRows groupNames true (dataRows re groupNames (openInput input).lines)) =
            (w, none)) ∧
      ((∀ q ∈ (cutAtLineFeeds input.data).1, q.length < bufferSizeMax) →
        (cutAtLineFeeds input.data).2.length < bufferSizeMax →
        (input.err = GoError.EOF → (openInput input).Err = none) ∧
        (input.err ≠ GoError.EOF → (openInput input).Err = some input.err)) := by
  obtain ⟨le, hpeek, _, h⟩ := processInput_eq_writeRows input re groupNames output hre
  refine ⟨le, hpeek, ?_, ?_, ?_⟩
  · intro w hw
    rw [h, hw]
    refine ⟨rfl, (writeRows_none le _ output w hw).1, ?_, ?_⟩
    · intro herr
      rw [herr]
      rfl
    · intro e herr
      rw [herr]
      rfl
  · intro hroom
    exact ⟨_, writeRows_of_room_none le _ output hroom⟩
  · intro hpieces htail
    rw [scanner_Err_eq, scanLines_eq_cut bufferSizeMax input.err input.data hpieces htail]
    constructor
    · intro he
      simp [he]
    · intro he
      simp [he]

/-- Witness of C14: a stream that ends after two lines, and a stream whose reading
fails after the line `t h x` and the bytes `u v`: the row of `t h x` is written and the
read error is returned. -/
theorem C14_end_of_stream_and_read_error_witness :
    syslogRe.WellFormed ∧
    (processInput syslogInput syslogRe [ascii "ts", ascii "host"] stdout).2 = Outcome.nil ∧
    (openInput failingInput).lines = [ascii "t h x", ascii "u v"] ∧
    processInput failingInput syslogRe [ascii "ts", ascii "host"] stdout =
      ({ written := ascii "ts,host\nt,h\n", room := none, err := GoError.ioFailure 32 },
        Outcome.error (GoError.ioFailure 5)) ∧
    ∃ le, peekForLineEnding failingInput logLineSizeMax = Except.ok (failingInput, le) ∧
      (∀ w, writeRows le stdout
          (emittedRows [ascii "ts", ascii "host"] true
            (dataRows syslogRe [ascii "ts", ascii "host"] (openInput failingInput).lines)) =
            (w, none) →
        (processInput failingInput syslogRe [ascii "ts", ascii "host"] stdout).1 = w ∧
        w.written = stdout.written ++
          ((emittedRows [ascii "ts", ascii "host"] true
              (dataRows syslogRe [ascii "ts", ascii "host"]
                (openInput failingInput).lines)).map
            (csvWrite (decide (le = [CR, LF])))).flatten ∧
        ((openInput failingInput).Err = none →
          (processInput failingInput syslogRe [ascii "ts", ascii "host"] stdout).2 =
            Outcome.nil) ∧
        (∀ e, (openInput failingInput).Err = some e →
          (processInput failingInput syslogRe [ascii "ts", ascii "host"] stdout).2 =
            Outcome.error e)) ∧
      (stdout.room = none →
        ∃ w, writeRows le stdout
          (emittedRows [ascii "ts", ascii "host"] true
            (dataRows syslogRe [ascii "ts", ascii "host"] (openInput failingInput).lines)) =
            (w, none)) ∧
      ((∀ q ∈ (cutAtLineFeeds failingInput.data).1, q.length < bufferSizeMax) →
        (cutAtLineFeeds failingInput.data).2.length < bufferSizeMax →
        (failingInput.err = GoError.EOF → (openInput failingInput).Err = none) ∧
        (failingInput.err ≠ GoError.EOF →
          (openInput failingInput).Err = some failingInput.err)) :=
  ⟨syslogRe_wellFormed, by decide, by decide, by decide,
    C14_end_of_stream_and_read_error failingInput syslogRe [ascii "ts", ascii "host"] stdout
      syslogRe_wellFormed⟩

/-- C15, as stated, fails on two kinds of stream: a final line without line feed that
ends with a carriage return is handed over without that carriage return, and a line of
`bufferSizeMax` bytes ends the sequence, so that neither it nor the line after it is
handed over. -/
theorem C15_counterexample :
    (openInput crTailInput).lines = [ascii "ab"] ∧
    specLines crTailInput.data = [ascii "ab\r"] ∧
    (openInput hugeLineInput).lines = [] ∧
    (openInput hugeLineInput).Err = some GoError.ErrTooLong ∧
    specLines hugeLineInput.data ≠ [] := by
  refine ⟨by decide, by decide, ?_, ?_, ?_⟩
  · rw [scanner_lines_eq, scanLines_hugeLineInput]
  · rw [scanner_Err_eq, scanLines_hugeLineInput]
  · exact specLines_ne_nil_of_mem _ mem_hugeLineInput

/-- C15, amended: when every line of the input is shorter than `bufferSizeMax`, the
lines handed to `processLine` are the pieces of the input cut at its line feeds, each
without its line feed and without a carriage return just before it, followed by the
non-empty rest after the last line feed, also without a final carriage return; no line
holds a line feed; and a stream written line by line yields the contents of its lines,
whichever of the two terminators ends each of them. -/
theorem C15_lines_are_the_cut_stream (input : Reader)
    (hpieces : ∀ q ∈ (cutAtLineFeeds input.data).1, q.length < bufferSizeMax)
    (htail : (cutAtLineFeeds input.data).2.length < bufferSizeMax) :
    (openInput input).lines =
      (cutAtLineFeeds input.data).1.map dropCR ++
        (if (cutAtLineFeeds input.data).2 = [] then []
          else [dropCR (cutAtLineFeeds input.data).2]) ∧
    ((cutAtLineFeeds input.data).1.map (fun piece => piece ++ [LF])).flatten ++
      (cutAtLineFeeds input.data).2 = input.data ∧
    (∀ line ∈ (openInput input).lines, LF ∉ line) ∧
    (∀ lines : List (GoString × Bool), input.data = terminated lines →
      (∀ p ∈ lines, LF ∉ p.1 ∧ p.1.getLast? ≠ some CR) →
      (openInput input).lines = lines.map Prod.fst) := by
  have hlines : (openInput input).lines =
      (cutAtLineFeeds input.data).1.map dropCR ++
        (if (cutAtLineFeeds input.data).2 = [] then []
          else [dropCR (cutAtLineFeeds input.data).2]) := by
    show (scanLines bufferSizeMax input.err input.data []).1 = _
    rw [scanLines_eq_cut bufferSizeMax input.err input.data hpieces htail]
  obtain ⟨h1, h2, h3⟩ := cutAtLineFeeds_spec input.data
  refine ⟨hlines, h1, ?_, ?_⟩
  · intro line hline
    rw [hlines] at hline
    rcases List.mem_append.1 hline with h | h
    · obtain ⟨q, hq, rfl⟩ := List.mem_map.1 h
      exact not_mem_dropCR q (h2 q hq)
    · split at h
      · cases h
      · rw [List.mem_singleton] at h
        rw [h]
        exact not_mem_dropCR _ h3
  · intro lines hdata hl
    rw [hlines, hdata, cutAtLineFeeds_terminated lines (fun p hp => (hl p hp).1)]
    simp only [if_true, List.append_nil]
    exact map_dropCR_terminated lines (fun p hp => (hl p hp).2)

/-- Witness of C15, amended: a stream whose first line ends with carriage return and
line feed and whose second line ends with a bare line feed yields the two contents. -/
theorem C15_lines_are_the_cut_stream_witness :
    (∀ q ∈ (cutAtLineFeeds mixedInput.data).1, q.length < bufferSizeMax) ∧
    (cutAtLineFeeds mixedInput.data).2.length < bufferSizeMax ∧
    mixedInput.data = terminated [(ascii "t h x", true), (ascii "u v w", false)] ∧
    (openInput mixedInput).lines = [ascii "t h x", ascii "u v w"] :=
  ⟨by decide, by decide, by decide,
    (C15_lines_are_the_cut_stream mixedInput (by decide) (by decide)).2.2.2
      [(ascii "t h x", true), (ascii "u v w", false)] (by decide) (by decide)⟩

/-- C16: streaming. Under one detected line-ending style and with a writer that never
fails, the bytes written for the lines `xs` followed by `ys` are the bytes written for
`xs` followed by a continuation; the continuation is what is written for `ys` alone
when `xs` yielded no row, and what is written for `ys` alone without its header when
`xs` yielded a row. -/
theorem C16_streaming_continuation (inputX inputY inputXY : Reader) (re : Regexp)
    (groupNames : List GoString) (output : Writer) (le : GoString)
    (hre : re.WellFormed) (hw : output.room = none)
    (hx : peekForLineEnding inputX logLineSizeMax = Except.ok (inputX, le))
    (hy : peekForLineEnding inputY logLineSizeMax = Except.ok (inputY, le))
    (hxy : peekForLineEnding inputXY logLineSizeMax = Except.ok (inputXY, le))
    (hlines : (openInput inputXY).lines = (openInput inputX).lines ++ (openInput inputY).lines) :
    ∃ cont,
      (processInput inputXY re groupNames output).1.written =
        (processInput inputX re groupNames output).1.written ++ cont ∧
      (dataRows re groupNames (openInput inputX).lines = [] →
        (processInput inputY re groupNames output).1.written = output.written ++ cont) ∧
      (dataRows re groupNames (openInput inputX).lines ≠ [] →
        (processInput inputY re groupNames output).1.written =
          output.written ++
            (if dataRows re groupNames (openInput inputY).lines = [] then []
              else csvWrite (decide (le = [CR, LF])) groupNames) ++ cont) := by
  have key : ∀ (input : Reader),
      peekForLineEnding input logLineSizeMax = Except.ok (input, le) →
      (processInput input re groupNames output).1.written =
        output.written ++
          ((emittedRows groupNames true (dataRows re groupNames (openInput input).lines)).map
            (csvWrite (decide (le = [CR, LF])))).flatten := by
    intro input hpeek
    obtain ⟨le2, hpeek2, _, h⟩ := processInput_written input re groupNames output hre hw
    rw [hpeek] at hpeek2
    injection hpeek2 with h5
    injection h5 with _ h6
    rw [h, ← h6]
  refine ⟨((emittedRows groupNames (decide (dataRows re groupNames (openInput inputX).lines = []))
      (dataRows re groupNames (openInput inputY).lines)).map
        (csvWrite (decide (le = [CR, LF])))).flatten, ?_, ?_, ?_⟩
  · rw [key inputXY hxy, key inputX hx, hlines, dataRows_append, emittedRows_append]
    simp
  · intro hd
    rw [key inputY hy, hd]
    simp
  · intro hd
    rw [key inputY hy, emittedRows_true]
    simp only [hd, decide_False, emittedRows_false, List.map_append, List.flatten_append,
      List.append_assoc, List.append_cancel_left_eq]
    split <;> simp

/-- Witness of C16: the lines `t h x` and `u v w`, alone and one after the other. -/
theorem C16_streaming_continuation_witness :
    syslogRe.WellFormed ∧ stdout.room = none ∧
    (openInput lineXYInput).lines = (openInput lineXInput).lines ++ (openInput lineYInput).lines ∧
    (processInput lineXInput syslogRe [ascii "ts", ascii "host"] stdout).1.written =
      ascii "ts,host\nt,h\n" ∧
    (processInput lineYInput syslogRe [ascii "ts", ascii "host"] stdout).1.written =
      ascii "ts,host\nu,v\n" ∧
    (processInput lineXYInput syslogRe [ascii "ts", ascii "host"] stdout).1.written =
      ascii "ts,host\nt,h\nu,v\n" ∧
    ∃ cont,
      (processInput lineXYInput syslogRe [ascii "ts", ascii "host"] stdout).1.written =
        (processInput lineXInput syslogRe [ascii "ts", ascii "host"] stdout).1.written ++ cont ∧
      (dataRows syslogRe [ascii "ts", ascii "host"] (openInput lineXInput).lines = [] →
        (processInput lineYInput syslogRe [ascii "ts", ascii "host"] stdout).1.written =
          stdout.written ++ cont) ∧
      (dataRows syslogRe [ascii "ts", ascii "host"] (openInput lineXInput).lines ≠ [] →
        (processInput lineYInput syslogRe [ascii "ts", ascii "host"] stdout).1.written =
          stdout.written ++
            (if dataRows syslogRe [ascii "ts", ascii "host"] (openInput lineYInput).lines = []
              then []
              else csvWrite (decide ([LF] = [CR, LF])) [ascii "ts", ascii "host"]) ++ cont) :=
  ⟨syslogRe_wellFormed, rfl, by decide, by decide, by decide, by decide,
    C16_streaming_continuation lineXInput lineYInput lineXYInput syslogRe
      [ascii "ts", ascii "host"] stdout [LF] syslogRe_wellFormed rfl rfl rfl rfl (by decide)⟩

/-- C17: indexing stays in range, with every index expression of the code carrying
Go's bounds check. Under the engine contract every index
`1 ≤ idxSubmatch < len(submatches)` is a valid index of `subNames` and of `submatches`,
and `processLine` returns without panic. `peekForLineEnding` with the bounds check of
`sample[idx-1]` explicit never panics and returns what `peekForLineEnding` returns: the
access is made only when `idx > 0`, and is then in range; at `idx = 0`, the index of a
sample that begins with a line feed, the same access would be out of range, and the
guard makes the function answer the style `\n` there. `extractGroupNames` returns
without panic. -/
theorem C17_indexing_in_range (re : Regexp) (hre : re.WellFormed) :
    (∀ line groupNames,
      (∀ submatches, re.FindStringSubmatch line = some submatches →
        ∀ idxSubmatch, 1 ≤ idxSubmatch → idxSubmatch < submatches.length →
          (∃ name, re.SubexpNames[idxSubmatch]? = some name) ∧
          (∃ val, submatches[idxSubmatch]? = some val)) ∧
      (∃ r, processLine line re groupNames = some r)) ∧
    (∀ (input : Reader) (sizeMaxPeek : Nat),
      peekForLineEndingChecked input sizeMaxPeek =
        some (peekForLineEnding input sizeMaxPeek)) ∧
    (∀ sample : List Nat, IndexByteInt sample LF > 0 →
      ∃ b, byteAt sample (IndexByteInt sample LF - 1) = some b) ∧
    (∀ sample : List Nat, IndexByteInt sample LF = 0 →
      byteAt sample (IndexByteInt sample LF - 1) = none) ∧
    (∀ (input : Reader) (rest : List Nat), input.data = LF :: rest →
      IndexByteInt (input.Peek defaultBufSize logLineSizeMax).1 LF = 0 ∧
      peekForLineEndingChecked input logLineSizeMax = some (Except.ok (input, [LF])) ∧
      ∀ sizeMaxPeek r le,
        peekForLineEndingChecked input sizeMaxPeek = some (Except.ok (r, le)) → le = [LF]) ∧
    (∃ names, extractGroupNames re = some names) := by
  refine ⟨?_, peekForLineEndingChecked_eq, ?_, ?_, ?_,
    ⟨_, extractGroupNames_of_wellFormed re hre⟩⟩
  · intro line groupNames
    constructor
    · intro submatches hf idx _ h2
      have hlen := hre.2 line submatches hf
      exact ⟨⟨_, List.getElem?_eq_getElem (hlen ▸ h2)⟩, ⟨_, List.getElem?_eq_getElem h2⟩⟩
    · cases hr : processLine line re groupNames with
      | none => exact absurd hr (processLine_ne_none_of_wellFormed re hre line groupNames)
      | some r => exact ⟨r, rfl⟩
  · intro sample hpos
    cases hi : IndexByte sample LF with
    | none =>
      have hint : IndexByteInt sample LF = -1 := by simp [IndexByteInt, hi]
      rw [hint] at hpos
      omega
    | some idx =>
      have hint : IndexByteInt sample LF = (idx : Int) := by simp [IndexByteInt, hi]
      obtain ⟨h1, b, h2⟩ := byteAt_pred_IndexByteInt sample idx hi (by omega)
      exact ⟨b, h1.trans h2⟩
  · intro sample h0
    rw [h0]
    exact byteAt_neg_one sample
  · intro input rest hdata
    have hle : ∀ n r le, peekForLineEndingChecked input n = some (Except.ok (r, le)) →
        le = [LF] := by
      intro n r le h
      rw [peekForLineEndingChecked_eq, Option.some.injEq] at h
      exact peekForLineEnding_leading_LF input rest hdata n r le h
    obtain ⟨le, hpeek, _⟩ := peekForLineEnding_ok input
    have hchecked : peekForLineEndingChecked input logLineSizeMax =
        some (Except.ok (input, le)) := by
      rw [peekForLineEndingChecked_eq, hpeek]
    refine ⟨?_, ?_, hle⟩
    · rcases Peek_leading_LF input rest hdata logLineSizeMax with ht | ⟨tail, ht⟩
      · exfalso
        have hlen := congrArg List.length ht
        simp [Reader.Peek, logLineSizeMax, defaultBufSize, hdata] at hlen
      · rw [ht]
        exact IndexByteInt_leading_LF tail
    · rw [hchecked, hle logLineSizeMax input le hchecked]

/-- Witness of C17: the example engine, and an input that begins with a line feed,
where the unguarded access would be `sample[-1]`. -/
theorem C17_indexing_in_range_witness :
    syslogRe.WellFormed ∧
    processLine (ascii "t h x") syslogRe [ascii "ts", ascii "host"] =
      some ([ascii "t", ascii "h"], true) ∧
    byteAt (ascii "\nt h x\r\n") (IndexByteInt (ascii "\nt h x\r\n") LF - 1) = none ∧
    byteAt (ascii "t h x\r\n") (IndexByteInt (ascii "t h x\r\n") LF - 1) = some CR ∧
    peekForLineEndingChecked crlfInput logLineSizeMax = some (Except.ok (crlfInput, [CR, LF])) ∧
    IndexByteInt (leadingLFInput.Peek defaultBufSize logLineSizeMax).1 LF = 0 ∧
    peekForLineEndingChecked leadingLFInput logLineSizeMax =
      some (Except.ok (leadingLFInput, [LF])) ∧
    (∃ names, extractGroupNames syslogRe = some names) :=
  ⟨syslogRe_wellFormed, by decide, by decide, by decide, rfl,
    ((C17_indexing_in_range syslogRe syslogRe_wellFormed).2.2.2.2.1 leadingLFInput
      (ascii "t h x\r\n") (by decide)).1,
    ((C17_indexing_in_range syslogRe syslogRe_wellFormed).2.2.2.2.1 leadingLFInput
      (ascii "t h x\r\n") (by decide)).2.1,
    (C17_indexing_in_range syslogRe syslogRe_wellFormed).2.2.2.2.2⟩

/-- C18: for an engine meeting the regexp contract and the header `extractGroupNames`
returns, every header cell is a non-empty string, every row `processLine` yields holds a
non-empty cell, every row written, header or data, holds a non-empty cell and its
serialisation is never the bare line terminator; with a writer that never fails the
output consists of these rows. -/
theorem C18_no_row_is_a_bare_terminator (re : Regexp) (hre : re.WellFormed) :
    ∃ names, extractGroupNames re = some names ∧
      (∀ name ∈ names, name ≠ []) ∧
      (∀ line values, processLine line re names = some (values, true) →
        ∃ cell ∈ values, cell ≠ []) ∧
      (∀ lines, ∀ row ∈ emittedRows names true (dataRows re names lines),
        (∃ cell ∈ row, cell ≠ []) ∧
        ∀ UseCRLF, csvWrite UseCRLF row ≠ (if UseCRLF then [CR, LF] else [LF])) ∧
      (∀ (input : Reader) (output : Writer), output.room = none →
        ∃ le, peekForLineEnding input logLineSizeMax = Except.ok (input, le) ∧
          (processInput input re names output).1.written =
            output.written ++
              ((emittedRows names true (dataRows re names (openInput input).lines)).map
                (csvWrite (decide (le = [CR, LF])))).flatten) := by
  have hnames : ∀ name ∈ (re.SubexpNames.drop 1).filter (fun name => name ≠ []), name ≠ [] := by
    intro name hname
    simpa using (List.mem_filter.1 hname).2
  have hdata : ∀ lines, ∀ row ∈ dataRows re
      ((re.SubexpNames.drop 1).filter (fun name => name ≠ [])) lines,
      (∃ cell ∈ row, cell ≠ []) ∧
      row.length = ((re.SubexpNames.drop 1).filter (fun name => name ≠ [])).length := by
    intro lines row hrow
    obtain ⟨line, _, hacc⟩ := List.mem_filterMap.1 hrow
    exact processLine_true_cells re hre line _ row (processLine_of_acceptedRow re _ line row hacc)
  have hrows : ∀ lines, ∀ row ∈ emittedRows
      ((re.SubexpNames.drop 1).filter (fun name => name ≠ [])) true
      (dataRows re ((re.SubexpNames.drop 1).filter (fun name => name ≠ [])) lines),
      ∃ cell ∈ row, cell ≠ [] := by
    intro lines row hrow
    cases hd : dataRows re ((re.SubexpNames.drop 1).filter (fun name => name ≠ [])) lines with
    | nil => rw [hd] at hrow; simp [emittedRows] at hrow
    | cons first rest =>
      have hfirst := hdata lines first (hd ▸ List.mem_cons_self _ _)
      rw [hd] at hrow
      simp only [emittedRows, if_true, List.mem_cons] at hrow
      rcases hrow with h | h | h
      · obtain ⟨⟨cell, hcell, _⟩, hlen⟩ := hfirst
        have hpos : 0 < ((re.SubexpNames.drop 1).filter (fun name => name ≠ [])).length := by
          rw [← hlen]
          exact List.length_pos_of_mem hcell
        obtain ⟨name, hname⟩ := List.exists_mem_of_length_pos hpos
        rw [h]
        exact ⟨name, hname, hnames name hname⟩
      · rw [h]
        exact hfirst.1
      · exact (hdata lines row (hd ▸ List.mem_cons_of_mem _ h)).1
  refine ⟨_, extractGroupNames_of_wellFormed re hre, hnames, ?_, ?_, ?_⟩
  · intro line values h
    exact (processLine_true_cells re hre line _ values h).1
  · intro lines row hrow
    exact ⟨hrows lines row hrow, fun crlf => csvWrite_ne_terminator crlf row (hrows lines row hrow)⟩
  · intro input output hw
    obtain ⟨le, hpeek, _, h⟩ := processInput_written input re
      ((re.SubexpNames.drop 1).filter (fun name => name ≠ [])) output hre hw
    exact ⟨le, hpeek, h⟩

/-- Witness of C18: the example engine and the rows of the example of the
specification. -/
theorem C18_no_row_is_a_bare_terminator_witness :
    syslogRe.WellFormed ∧
    extractGroupNames syslogRe = some [ascii "ts", ascii "host"] ∧
    emittedRows [ascii "ts", ascii "host"] true
      (dataRows syslogRe [ascii "ts", ascii "host"] (openInput syslogInput).lines) =
      [[ascii "ts", ascii "host"], [ascii "2024-01-01T00:00:00+00:00", ascii "host1"],
        [ascii "2024-01-01T00:00:01+00:00", ascii "host2"]] ∧
    ∃ names, extractGroupNames syslogRe = some names ∧ ∀ name ∈ names, name ≠ [] :=
  ⟨syslogRe_wellFormed, by decide, by decide,
    let ⟨names, h1, h2, _⟩ := C18_no_row_is_a_bare_terminator syslogRe syslogRe_wellFormed
    ⟨names, h1, h2⟩⟩

end Log2CSV
